import Mathlib

/-!
Verification of the sewerage depth estimator core against its source.

Numbers are modelled as exact rationals (the Python code computes with
floats; here every arithmetic step of the source is mirrored exactly, and
the integer-millimetre rounding of the source is modelled with the Python
round-half-to-even rule). Node keys and feature ids are modelled as
natural numbers; the snapped coordinate string of the source is an opaque
identifier at this level of abstraction.
-/

namespace Sewerage

/-- Hydraulic parameters of `DepthCalculator.__init__` in
`src/core/depth_calculator.py`. -/
structure HydraulicParams where
  min_cover_m : ℚ
  diameter_m : ℚ
  slope_m_per_m : ℚ

/-- Python builtin `round` restricted to exact rationals: round to the
nearest integer, halves to the even integer. -/
def pyRound (q : ℚ) : ℤ :=
  let f := ⌊q⌋
  let r := q - f
  if r < 1/2 then f
  else if 1/2 < r then f + 1
  else if Even f then f else f + 1

/-- `DepthCalculator.calculate_minimum_depth` (depth_calculator.py lines
27-32): cover and diameter converted to rounded integer millimetres,
summed, divided by 1000. -/
def calculate_minimum_depth (p : HydraulicParams) : ℚ :=
  let min_cover_mm : ℤ := pyRound (p.min_cover_m * 1000)
  let diameter_mm : ℤ := pyRound (p.diameter_m * 1000)
  ((min_cover_mm + diameter_mm : ℤ) : ℚ) / 1000

/-- `DepthCalculator.calculate_segment_depths` (depth_calculator.py lines
34-76). The body never raises on rational inputs: the only division
(`actual_slope`, used for logging only) is guarded by
`segment_length > 0`, so the `except` fallback is unreachable and the
function is total. The logging-only `actual_slope` computation does not
influence the returned pair and is omitted. -/
def calculate_segment_depths (p : HydraulicParams)
    (upstream_depth p1_elev p2_elev segment_length : ℚ) : ℚ × ℚ :=
  let upstream_bottom_elev := p1_elev - upstream_depth
  let fall := segment_length * max 0 p.slope_m_per_m
  let downstream_bottom_candidate := upstream_bottom_elev - fall
  let downstream_depth_candidate := p2_elev - downstream_bottom_candidate
  let min_depth := calculate_minimum_depth p
  let downstream_depth := max downstream_depth_candidate min_depth
  (upstream_depth, downstream_depth)

/-- Second half of `DepthCalculator.calculate_initial_depth`
(depth_calculator.py lines 97-103): the override is used when it is
truthy (non-zero, non-None) and positive, otherwise the minimum depth. -/
def initial_depth_from_override (p : HydraulicParams)
    (initial_depth_override : Option ℚ) : ℚ :=
  match initial_depth_override with
  | some v => if v ≠ 0 ∧ 0 < v then v else calculate_minimum_depth p
  | none => calculate_minimum_depth p

/-- `DepthCalculator.calculate_initial_depth` (depth_calculator.py lines
78-103): existing positive depth wins, then a positive override, then the
minimum depth. The ground elevation argument is accepted but unused by
the source. -/
def calculate_initial_depth (p : HydraulicParams) (ground_elevation : ℚ)
    (initial_depth_override existing_depth : Option ℚ) : ℚ :=
  match existing_depth with
  | some d => if 0 < d then d else initial_depth_from_override p initial_depth_override
  | none => initial_depth_from_override p initial_depth_override

/-- The default parameters used throughout the scenarios of the spec:
cover 0.9 m, diameter 0.15 m, slope 0.005. -/
def defaultParams : HydraulicParams := ⟨9/10, 3/20, 1/200⟩

/-- Python `round(x, 2)` on exact rationals, as used when writing depth
attributes back to the layer. -/
def roundTo2 (q : ℚ) : ℚ := ((pyRound (q * 100) : ℤ) : ℚ) / 100

namespace TreeMapper

/-- `NetworkSegment` of src/core/network_tree_mapper.py (lines 29-40).
Coordinates are represented only through their snapped node keys, which
the source derives via `CoordinateUtils.node_key`; the keys are modelled
as natural numbers. -/
structure NetworkSegment where
  feature_id : ℕ
  upstream_node_key : ℕ
  downstream_node_key : ℕ
  length : ℚ
  p1_elevation : Option ℚ := none
  p2_elevation : Option ℚ := none
  p1_depth : Option ℚ := none
  p2_depth : Option ℚ := none

/-- `NetworkNode` of src/core/network_tree_mapper.py (lines 19-27). -/
structure NetworkNode where
  key : ℕ
  upstream_segments : List ℕ
  downstream_segments : List ℕ
  current_depth : Option ℚ := none
  is_convergent : Bool := false

/-- The mutable maps of `NetworkTreeMapper`: `self.nodes`,
`self.segments`, `self.current_depths`, `self.updated_depths`. -/
structure MapperState where
  nodes : ℕ → Option NetworkNode
  segments : ℕ → Option NetworkSegment
  current_depths : ℕ → Option ℚ
  updated_depths : ℕ → Option ℚ

/-- The idiom `self.updated_depths.get(k) or self.current_depths.get(k)`
of the source (network_tree_mapper.py lines 666-667 and 717-718): Python
`or` falls through both on `None` and on the float `0.0`. -/
def resolveNodeDepth (st : MapperState) (k : ℕ) : Option ℚ :=
  match st.updated_depths k with
  | some d => if d = 0 then st.current_depths k else some d
  | none => st.current_depths k

/-- `NetworkTreeMapper._get_minimum_depth` (lines 1014-1023) when a depth
calculator is supplied, as it is at every call site of the cascade. -/
def getMinimumDepth (p : HydraulicParams) : ℚ := calculate_minimum_depth p

/-- `NetworkTreeMapper._calculate_segment_with_upstream_depth` (lines
735-758): missing segment gives the minimum depth, missing elevations
return the upstream depth unchanged, otherwise the downstream result of
the depth calculator. The arithmetic never raises on rationals, so the
except branch is unreachable. -/
def calcSegmentWithUpstreamDepth (st : MapperState) (p : HydraulicParams)
    (segment_id : ℕ) (upstream_depth : ℚ) : ℚ :=
  match st.segments segment_id with
  | none => getMinimumDepth p
  | some seg =>
    match seg.p1_elevation, seg.p2_elevation with
    | some e1, some e2 => (calculate_segment_depths p upstream_depth e1 e2 seg.length).2
    | _, _ => upstream_depth

/-- `NetworkTreeMapper._recalculate_segment_from_source` (lines 696-733):
root and convergent upstream nodes fall back to the minimum depth basis;
a single upstream connection reads the stored depth at its downstream
node key; a registered-but-missing upstream segment reaches the final
fallback returning the bare minimum depth. -/
def recalcSegmentFromSource (st : MapperState) (p : HydraulicParams)
    (segment_id : ℕ) : ℚ :=
  match st.segments segment_id with
  | none => getMinimumDepth p
  | some seg =>
    match st.nodes seg.upstream_node_key with
    | none => calcSegmentWithUpstreamDepth st p segment_id (getMinimumDepth p)
    | some un =>
      match un.upstream_segments with
      | [] => calcSegmentWithUpstreamDepth st p segment_id (getMinimumDepth p)
      | [uid] =>
        match st.segments uid with
        | some useg =>
          match resolveNodeDepth st useg.downstream_node_key with
          | some d => calcSegmentWithUpstreamDepth st p segment_id d
          | none => calcSegmentWithUpstreamDepth st p segment_id (getMinimumDepth p)
        | none => getMinimumDepth p
      | _ => calcSegmentWithUpstreamDepth st p segment_id (getMinimumDepth p)

/-- Whether an upstream segment is still actually connected at the
convergent node: `upstream_segment.downstream_node_key == node_key`
(network_tree_mapper.py line 661). A missing segment is skipped. -/
def isStillConnected (st : MapperState) (node_key sid : ℕ) : Bool :=
  match st.segments sid with
  | some s => s.downstream_node_key == node_key
  | none => false

/-- One step of the loop body of
`NetworkTreeMapper._get_convergent_node_max_depth` (lines 657-685),
accumulating the running maximum and the count of connected segments.
A stored depth is used directly unless recalculation is forced or the
stored value resolves to nothing, in which case the depth is
recalculated from the source chain. When recalculation is forced and no
stored depth resolves at the node, the debug log at line 676 formats the
missing depth with the float format `:.2f` and raises `TypeError`; that
aborted iteration is modelled by `none`. On the forced path with a
resolvable stored depth the same log call formats a float and succeeds,
and the recalculated value is used. -/
def convergentAccum (st : MapperState) (p : HydraulicParams) (node_key : ℕ)
    (force_recalculate : Bool) (acc : ℚ × ℕ) (upstream_seg_id : ℕ) : Option (ℚ × ℕ) :=
  match st.segments upstream_seg_id with
  | none => some acc
  | some useg =>
    if useg.downstream_node_key = node_key then
      match resolveNodeDepth st useg.downstream_node_key, force_recalculate with
      | some d, false => some (max acc.1 d, acc.2 + 1)
      | some _, true =>
        some (max acc.1 (recalcSegmentFromSource st p upstream_seg_id), acc.2 + 1)
      | none, false =>
        some (max acc.1 (recalcSegmentFromSource st p upstream_seg_id), acc.2 + 1)
      | none, true => none
    else some acc

/-- The loop of `_get_convergent_node_max_depth` over the upstream
segment list of the node: a raised `TypeError` in one iteration (a
`none` step) aborts the whole loop and propagates. -/
def convergentFold (st : MapperState) (p : HydraulicParams) (node_key : ℕ)
    (force_recalculate : Bool) : List ℕ → ℚ × ℕ → Option (ℚ × ℕ)
  | [], acc => some acc
  | sid :: rest, acc =>
    match convergentAccum st p node_key force_recalculate acc sid with
    | none => none
    | some acc2 => convergentFold st p node_key force_recalculate rest acc2

/-- The depth value the loop of `_get_convergent_node_max_depth` feeds
into the running maximum for a connected upstream segment: the stored
depth resolved at the shared node key when present and recalculation is
not forced, otherwise the downstream depth freshly recalculated from
the source chain of that segment (so distinct connected segments
contribute distinct recalculated values in general). -/
def convergentDepthOf (st : MapperState) (p : HydraulicParams) (node_key : ℕ)
    (force_recalculate : Bool) (sid : ℕ) : ℚ :=
  match resolveNodeDepth st node_key, force_recalculate with
  | some d, false => d
  | _, _ => recalcSegmentFromSource st p sid

/-- `NetworkTreeMapper._get_convergent_node_max_depth` (lines 648-694):
fold the accumulator over the upstream segment list of the node starting
from max 0.0 and count 0; with no connected segment the minimum depth is
returned. The overall `none` models the reachable `TypeError` of the
forced path propagating out of the function. -/
def convergentNodeMaxDepth (st : MapperState) (p : HydraulicParams)
    (node_key : ℕ) (force_recalculate : Bool) : Option ℚ :=
  match st.nodes node_key with
  | none => some (getMinimumDepth p)
  | some node =>
    match convergentFold st p node_key force_recalculate node.upstream_segments (0, 0) with
    | none => none
    | some r => if r.2 = 0 then some (getMinimumDepth p) else some r.1

/-- The upstream segments of a node that are still connected there, in
list order: the segments the loop of `_get_convergent_node_max_depth`
actually counts. -/
def connectedUpstream (st : MapperState) (node_key : ℕ) (node : NetworkNode) : List ℕ :=
  node.upstream_segments.filter (fun sid => isStillConnected st node_key sid)

/-- The downstream depth of a segment as the cascade reads it: the
resolved stored depth at the downstream node key of the segment. -/
def segmentDownstreamDepth (st : MapperState) (sid : ℕ) : Option ℚ :=
  (st.segments sid).bind (fun s => resolveNodeDepth st s.downstream_node_key)

/-- The result flags of `_process_segment_smart_cascade`
(network_tree_mapper.py lines 530-535). -/
structure CascadeStepResult where
  recalculated : Bool
  cascade_stopped : Bool
  convergent_update : Bool
  depth_changed : Bool

/-- `NetworkTreeMapper._get_updated_elevation` (lines 982-988): an update
entry overrides the stored elevation when present. -/
def getUpdatedElevation (override current : Option ℚ) : Option ℚ :=
  match override with
  | some v => some v
  | none => current

/-- Assignment `self.updated_depths[k] = v`. -/
def setUpdatedDepth (st : MapperState) (k : ℕ) (v : ℚ) : MapperState :=
  { st with updated_depths := fun j => if j = k then some v else st.updated_depths j }

/-- `NetworkTreeMapper._update_convergent_node_depth` (lines 803-808):
keep the maximum of the tracked updated depth (defaulting to 0.0) and the
new depth. -/
def updateConvergentNodeDepth (st : MapperState) (node_key : ℕ) (new_depth : ℚ) : MapperState :=
  let current_depth := (st.updated_depths node_key).getD 0
  if current_depth < new_depth then setUpdatedDepth st node_key new_depth else st

/-- `NetworkTreeMapper._get_upstream_depth_smart` (lines 611-646): root
or missing upstream node gives the minimum depth; a convergent upstream
node takes the convergent maximum (forcing recalculation when the node
is marked affected by a disconnection); a single upstream connection
reads the stored node depth with Python `or` falsiness; everything else
falls back to the minimum depth. The function has no `try`, so a
`TypeError` raised inside `_get_convergent_node_max_depth` propagates
through it: that is the `none` result. -/
def getUpstreamDepthSmart (st : MapperState) (p : HydraulicParams)
    (convergent_nodes affected_convergent : List ℕ) (segment : NetworkSegment) : Option ℚ :=
  let k := segment.upstream_node_key
  match st.nodes k with
  | none => some (getMinimumDepth p)
  | some upstream_node =>
    if upstream_node.upstream_segments.length = 0 then some (getMinimumDepth p)
    else if k ∈ convergent_nodes ∨ upstream_node.is_convergent = true then
      convergentNodeMaxDepth st p k (decide (k ∈ affected_convergent))
    else
      match upstream_node.upstream_segments with
      | [uid] =>
        match st.segments uid with
        | some _ =>
          match resolveNodeDepth st k with
          | some d => if d = 0 then some (getMinimumDepth p) else some d
          | none => some (getMinimumDepth p)
        | none => some (getMinimumDepth p)
      | _ => some (getMinimumDepth p)

/-- The commit path of `_process_segment_smart_cascade` (lines 573-591):
record both updated depths, then apply the convergent maximum rule when
the downstream node is a tracked convergent node. The layer write is
modelled by the returned rounded pair; the field indices are assumed
mapped, so the write succeeds. -/
def commitSmart (st : MapperState) (convergent_nodes : List ℕ)
    (segment : NetworkSegment) (p1_depth p2_depth : ℚ) :
    CascadeStepResult × MapperState × Option (ℚ × ℚ) :=
  let st1 := setUpdatedDepth (setUpdatedDepth st segment.upstream_node_key p1_depth)
    segment.downstream_node_key p2_depth
  if segment.downstream_node_key ∈ convergent_nodes then
    (⟨true, false, true, true⟩,
      updateConvergentNodeDepth st1 segment.downstream_node_key p2_depth,
      some (roundTo2 p1_depth, roundTo2 p2_depth))
  else
    (⟨true, false, false, true⟩, st1, some (roundTo2 p1_depth, roundTo2 p2_depth))

/-- `NetworkTreeMapper._process_segment_smart_cascade` (lines 526-609):
missing segment or elevations leave everything untouched; otherwise the
new depths are computed from the smart upstream depth and committed when
there is no stored downstream depth, when the depth rises by more than
the 1 cm threshold, or when it changes by more than 10 cm; with a change
of at least 1 cm that is no rise above threshold the segment is still
updated for consistency; only a change strictly below 1 cm stops the
cascade with no write. A `TypeError` raised while computing the smart
upstream depth is swallowed by the catch-all `except` of the function
(lines 603-609), which returns the result flags still at their all-false
defaults with nothing written. -/
def processSegmentSmartCascade (st : MapperState) (p : HydraulicParams)
    (elevation_updates : ℕ → Option ℚ × Option ℚ)
    (convergent_nodes affected_convergent : List ℕ) (feature_id : ℕ) :
    CascadeStepResult × MapperState × Option (ℚ × ℚ) :=
  match st.segments feature_id with
  | none => (⟨false, false, false, false⟩, st, none)
  | some segment =>
    match getUpdatedElevation (elevation_updates feature_id).1 segment.p1_elevation,
        getUpdatedElevation (elevation_updates feature_id).2 segment.p2_elevation with
    | some p1_elev, some p2_elev =>
      match getUpstreamDepthSmart st p convergent_nodes affected_convergent segment with
      | none => (⟨false, false, false, false⟩, st, none)
      | some upstream_depth =>
        let depths := calculate_segment_depths p upstream_depth p1_elev p2_elev segment.length
        match st.current_depths segment.downstream_node_key with
        | none => commitSmart st convergent_nodes segment depths.1 depths.2
        | some current_p2_depth =>
          if current_p2_depth + 1/100 < depths.2 ∨ 1/10 < |depths.2 - current_p2_depth| then
            commitSmart st convergent_nodes segment depths.1 depths.2
          else if |depths.2 - current_p2_depth| < 1/100 then
            (⟨false, true, false, false⟩, st, none)
          else
            let st1 := setUpdatedDepth (setUpdatedDepth st segment.upstream_node_key depths.1)
              segment.downstream_node_key depths.2
            (⟨true, false, false, false⟩, st1, some (roundTo2 depths.1, roundTo2 depths.2))
    | _, _ => (⟨false, false, false, false⟩, st, none)

/-- `upstream_affected` of `_topological_sort_segments`
(network_tree_mapper.py lines 487-491): the upstream segments registered
at the upstream node of a segment, restricted to the affected id set; a
missing segment or node leaves the in-degree at its initial 0, which is
modelled by the empty list. -/
def upstreamAffected (st : MapperState) (ids : List ℕ) (seg_id : ℕ) : List ℕ :=
  match st.segments seg_id with
  | none => []
  | some segment =>
    match st.nodes segment.upstream_node_key with
    | none => []
    | some upstream_node => upstream_node.upstream_segments.filter (fun us => ids.contains us)

/-- The adjacency list `graph[a]` built by `_topological_sort_segments`
(lines 493-496): one entry of b per occurrence of a in the affected
upstream list of b, in the iteration order of the id list. -/
def graphSucc (st : MapperState) (ids : List ℕ) (a : ℕ) : List ℕ :=
  ids.flatMap (fun b => List.replicate ((upstreamAffected st ids b).count a) b)

/-- The inner loop of Kahn processing (lines 507-510): decrement the
in-degree of each listed neighbour in order, collecting in order those
whose in-degree reaches exactly 0 at their decrement. -/
def decNeighbors : (ℕ → ℤ) → List ℕ → (ℕ → ℤ) × List ℕ
  | d, [] => (d, [])
  | d, n :: rest =>
    let d2 : ℕ → ℤ := fun x => if x = n then d x - 1 else d x
    let r := decNeighbors d2 rest
    if d2 n = 0 then (r.1, n :: r.2) else r

/-- Bound on the remaining work of the Kahn loop: queue length plus the
total of the nonnegative parts of the tracked in-degrees. Each loop
iteration strictly decreases it. -/
def kahnMeasure (ids : List ℕ) (d : ℕ → ℤ) (q : List ℕ) : ℕ :=
  q.length + (ids.map (fun i => (d i).toNat)).sum

/-- The while loop of Kahn sorting (lines 502-510): pop the queue front,
append it to the result, decrement downstream in-degrees and enqueue the
newly ready segments at the back. The loop is expressed with explicit
fuel; `kahnAuxFuel_congr` shows any fuel above the measure yields the
value of the unbounded loop. -/
def kahnAuxFuel (graph : ℕ → List ℕ) : ℕ → List ℕ → (ℕ → ℤ) → List ℕ → List ℕ
  | _, [], _, result => result
  | 0, _ :: _, _, result => result
  | fuel + 1, current :: rest, d, result =>
    let step := decNeighbors d (graph current)
    kahnAuxFuel graph fuel (rest ++ step.2) step.1 (result ++ [current])

/-- The initial in-degree map of `_topological_sort_segments`. -/
def initialInDegree (st : MapperState) (ids : List ℕ) : ℕ → ℤ :=
  fun s => ((upstreamAffected st ids s).length : ℤ)

/-- The initial zero-in-degree queue of `_topological_sort_segments`
(line 499), in id iteration order. -/
def initialQueue (st : MapperState) (ids : List ℕ) : List ℕ :=
  ids.filter (fun s => initialInDegree st ids s == 0)

/-- The Kahn phase of `_topological_sort_segments` (lines 470-510): runs
the loop to completion (the supplied fuel exceeds the loop measure). -/
def kahnOrdered (st : MapperState) (ids : List ℕ) : List ℕ :=
  kahnAuxFuel (graphSucc st ids)
    (kahnMeasure ids (initialInDegree st ids) (initialQueue st ids) + 1)
    (initialQueue st ids) (initialInDegree st ids) []

/-- `NetworkTreeMapper._topological_sort_segments` (lines 470-524): Kahn
result, then any ids not ordered (a residual cycle) appended; the set
subtraction of the source is determinised to id iteration order, and the
cycle condition is logged as a warning, not raised. -/
def topologicalSortSegments (st : MapperState) (ids : List ℕ) : List ℕ :=
  kahnOrdered st ids ++ ids.filter (fun s => !((kahnOrdered st ids).contains s))

end TreeMapper

namespace Recalculator

/-- `DepthRecalculator._check_convergent_depth_conflict`
(src/core/depth_recalculator.py lines 737-787): decide whether the newly
calculated P1 depth of a convergent-affected feature may overwrite the
existing one, with a 1 cm tolerance. No existing depth always updates; a
calculated depth above existing plus tolerance is rejected; one below
existing minus tolerance is accepted; within tolerance the larger of the
two wins. The diagnostic reason strings of the source are omitted; the
except path is unreachable on rational inputs. -/
def checkConvergentDepthConflict (existing_p1_depth : Option ℚ)
    (calculated_p1_depth : ℚ) : Bool :=
  match existing_p1_depth with
  | none => true
  | some existing =>
    if existing + 1/100 < calculated_p1_depth then false
    else if calculated_p1_depth < existing - 1/100 then true
    else if |calculated_p1_depth - existing| ≤ 1/100 then
      (if max calculated_p1_depth existing ≠ calculated_p1_depth then false else true)
    else true

/-- The commit step of `_recalculate_segments_depths_enhanced`
(depth_recalculator.py lines 584-615): convergent-affected features run
conflict resolution; on acceptance the newly calculated pair is stored
for downstream propagation (and written to the layer), on rejection the
existing stored pair is propagated instead when both stored depths are
present. Returns the update decision and the propagated entry. -/
def enhancedCommitStep (is_convergent_affected : Bool)
    (existing_p1_depth existing_p2_depth : Option ℚ)
    (p1_depth p2_depth : ℚ) : Bool × Option (ℚ × ℚ) :=
  let should_update :=
    if is_convergent_affected then checkConvergentDepthConflict existing_p1_depth p1_depth
    else true
  if should_update then (true, some (p1_depth, p2_depth))
  else
    match existing_p1_depth, existing_p2_depth with
    | some a, some b => (false, some (a, b))
    | _, _ => (false, none)

/-- `DepthRecalculator._determine_upstream_depth_enhanced`
(depth_recalculator.py lines 643-703). The convergent-node maximum and
the network upstream depth are the results of
`_get_convergent_node_max_depth` and `_get_upstream_depth_from_network`,
queries against the analyzer snapshot, passed here as inputs; the
membership tests against the three category lists are passed as flags.
Case order follows the source: orphaned downstream, orphaned upstream,
convergent affected (only when the convergent query returns a value),
network upstream, stored P1 depth, minimum depth. -/
def determineUpstreamDepthEnhanced (p : HydraulicParams)
    (is_orphaned is_orphaned_upstream is_convergent_affected : Bool)
    (existing_p1_depth convergent_max_depth network_upstream_depth : Option ℚ) : ℚ :=
  if is_orphaned then calculate_minimum_depth p
  else if is_orphaned_upstream then
    match existing_p1_depth with
    | some d => d
    | none => calculate_minimum_depth p
  else
    match (if is_convergent_affected then convergent_max_depth else none) with
    | some d => d
    | none =>
      match network_upstream_depth with
      | some d => d
      | none =>
        match existing_p1_depth with
        | some d => d
        | none => calculate_minimum_depth p

end Recalculator

namespace NetworkAnalyzer

/-- In `NetworkAnalyzer.build_network_topology` a node entry
`(segment_idx, True)` records that the node is the p1 (upstream end) of
the segment and `(segment_idx, False)` that it is the p2 (downstream
end) (network_analyzer.py lines 124-125). The segments flowing into a
node are therefore the entries whose flag is false
(`_handle_downstream_vertex` line 243). -/
def upstreamSegmentsToP2 (node_connections : ℕ → List (ℕ × Bool))
    (p2_key : ℕ) : List ℕ :=
  ((node_connections p2_key).filter (fun c => !c.2)).map Prod.fst

/-- The segments starting at a node: entries whose flag is true
(`_handle_downstream_vertex` line 244). -/
def downstreamSegmentsAt (node_connections : ℕ → List (ℕ × Bool))
    (p2_key : ℕ) : List ℕ :=
  ((node_connections p2_key).filter (fun c => c.2)).map Prod.fst

/-- The comprehension of `_handle_downstream_vertex` line 252: the
already computed downstream depth `segment_depths[us_idx][1]` of each
upstream segment recorded at the node, in list order, skipping segments
with no recorded depth pair. -/
def upstreamDepthsAt (node_connections : ℕ → List (ℕ × Bool))
    (segment_depths : ℕ → Option (ℚ × ℚ)) (p2_key : ℕ) : List ℚ :=
  (upstreamSegmentsToP2 node_connections p2_key).filterMap
    (fun us => (segment_depths us).map Prod.snd)

/-- `NetworkAnalyzer._handle_downstream_vertex` (network_analyzer.py
lines 238-267). At a convergent vertex (more than one inflowing
segment) with all inflowing segments processed and at least one
recorded depth, the vertex depth becomes the maximum of the recorded
per-segment downstream depths (Python `max` over a nonempty list is the
left fold of `max` over its tail starting from its head) and every
unprocessed outflowing segment is enqueued with that maximum; at a
normal vertex the depth of the just processed segment is recorded and
handed on. The dictionary writes are modelled by the returned updated
`vertex_depths` map and queue. -/
def handleDownstreamVertex (p2_key : ℕ) (p2_depth : ℚ)
    (node_connections : ℕ → List (ℕ × Bool))
    (segment_depths : ℕ → Option (ℚ × ℚ)) (processed : List ℕ)
    (vertex_depths : ℕ → Option ℚ) (queue : List (ℕ × ℚ)) :
    (ℕ → Option ℚ) × List (ℕ × ℚ) :=
  if 1 < (upstreamSegmentsToP2 node_connections p2_key).length then
    if (upstreamSegmentsToP2 node_connections p2_key).all
        (fun us => processed.contains us) then
      match upstreamDepthsAt node_connections segment_depths p2_key with
      | [] => (vertex_depths, queue)
      | d0 :: ds =>
        (fun k => if k = p2_key then some (ds.foldl max d0) else vertex_depths k,
          queue ++ ((downstreamSegmentsAt node_connections p2_key).filter
            (fun d2 => !(processed.contains d2))).map
            (fun d2 => (d2, ds.foldl max d0)))
    else (vertex_depths, queue)
  else
    (fun k => if k = p2_key then some p2_depth else vertex_depths k,
      queue ++ ((downstreamSegmentsAt node_connections p2_key).filter
        (fun d2 => !(processed.contains d2))).map (fun d2 => (d2, p2_depth)))

end NetworkAnalyzer

open TreeMapper Recalculator NetworkAnalyzer

/-- Python round of an exact integer is that integer. -/
theorem pyRound_intCast (n : ℤ) : pyRound ((n : ℚ)) = n := by
  simp [pyRound]

/-- Evaluation of the minimum depth at the default parameters. -/
theorem default_min_depth : calculate_minimum_depth defaultParams = 21/20 := by
  have h1 : defaultParams.min_cover_m * 1000 = ((900 : ℤ) : ℚ) := by
    norm_num [defaultParams]
  have h2 : defaultParams.diameter_m * 1000 = ((150 : ℤ) : ℚ) := by
    norm_num [defaultParams]
  simp only [calculate_minimum_depth, h1, h2, pyRound_intCast]
  norm_num

/-- Closed form of `calculate_segment_depths`: the lets of the source
collapse by definitional unfolding. -/
theorem calculate_segment_depths_eq (p : HydraulicParams)
    (upstream_depth p1_elev p2_elev segment_length : ℚ) :
    calculate_segment_depths p upstream_depth p1_elev p2_elev segment_length =
      (upstream_depth,
        max (p2_elev - ((p1_elev - upstream_depth) - segment_length * max 0 p.slope_m_per_m))
          (calculate_minimum_depth p)) := rfl

/-- C7: `calculate_minimum_depth` works in rounded integer millimetres
divided by 1000; for cover 0.9 and diameter 0.15 the result is exactly
21/20 = 1.05, and in general it is the exact rational
(cover_mm + diameter_mm) / 1000. -/
theorem minimum_depth_integer_millimetres :
    calculate_minimum_depth defaultParams = 21/20 ∧
    ∀ p : HydraulicParams, calculate_minimum_depth p =
      ((pyRound (p.min_cover_m * 1000) + pyRound (p.diameter_m * 1000) : ℤ) : ℚ) / 1000 :=
  ⟨default_min_depth, fun p => rfl⟩

/-- C6: for positive segment length the downstream depth returned by
`calculate_segment_depths` is at least the minimum depth, because it is
computed as a max with the minimum depth. -/
theorem segment_depths_minimum_floor (p : HydraulicParams)
    (upstream_depth p1_elev p2_elev segment_length : ℚ)
    (h : 0 < segment_length) :
    calculate_minimum_depth p ≤
      (calculate_segment_depths p upstream_depth p1_elev p2_elev segment_length).2 := by
  simp only [calculate_segment_depths]
  exact le_max_right _ _

/-- Witness for C6 at concrete inputs. -/
theorem segment_depths_minimum_floor_witness :
    (0 : ℚ) < 10 ∧
    calculate_minimum_depth defaultParams ≤
      (calculate_segment_depths defaultParams (21/20) 100 95 10).2 :=
  ⟨by norm_num, segment_depths_minimum_floor defaultParams (21/20) 100 95 10 (by norm_num)⟩

/-- C4 counterexample: with zero segment length the code does not return
the upstream depth for both ends; the normal formula still applies. At
upstream depth 1.05, elevations 100 and 100.5, length 0 the result is
(1.05, 1.55), not (1.05, 1.05). -/
theorem segment_depths_zero_length_counterexample :
    calculate_segment_depths defaultParams (21/20) 100 (201/2) 0 ≠ (21/20, 21/20) := by
  rw [calculate_segment_depths_eq, default_min_depth]
  have hmax : max ((201/2 : ℚ) - ((100 - 21/20) - 0 * max 0 defaultParams.slope_m_per_m))
      (21/20) = 31/20 := by
    rw [max_eq_left] <;> norm_num
  rw [hmax]
  intro h
  have := congrArg Prod.snd h
  norm_num at this

/-- C4 amended: `calculate_segment_depths` is total (side-effect-free and
never failing), and for non-positive length it applies the same formula
as for positive length: the downstream depth is the slope-derived
candidate floored at the minimum depth, not the upstream depth. -/
theorem segment_depths_nonpositive_length (p : HydraulicParams)
    (upstream_depth p1_elev p2_elev segment_length : ℚ)
    (h : segment_length ≤ 0) :
    calculate_segment_depths p upstream_depth p1_elev p2_elev segment_length =
      (upstream_depth,
        max (p2_elev - p1_elev + upstream_depth + segment_length * max 0 p.slope_m_per_m)
          (calculate_minimum_depth p)) := by
  rw [calculate_segment_depths_eq]
  have harith : p2_elev - ((p1_elev - upstream_depth) - segment_length * max 0 p.slope_m_per_m)
      = p2_elev - p1_elev + upstream_depth + segment_length * max 0 p.slope_m_per_m := by
    ring
  rw [harith]

/-- Witness for the amended C4 at length 0. -/
theorem segment_depths_nonpositive_length_witness :
    (0 : ℚ) ≤ 0 ∧
    calculate_segment_depths defaultParams (21/20) 100 (201/2) 0 =
      (21/20,
        max ((201/2 : ℚ) - 100 + 21/20 + 0 * max 0 defaultParams.slope_m_per_m)
          (calculate_minimum_depth defaultParams)) :=
  ⟨le_refl 0, segment_depths_nonpositive_length defaultParams (21/20) 100 (201/2) 0 (le_refl 0)⟩

/-- C5 counterexample: Scenario 1 of the spec (length 10, elevations
100 to 95, cover 0.9, diameter 0.15, slope 0.005, initial depth override
0) does not yield p2_depth = 5.00: the slope-derived candidate is
95 - 98.90 = -3.90, so the minimum-depth floor 1.05 applies. -/
theorem scenario1_initial_depth :
    calculate_initial_depth defaultParams 100 (some 0) none = 21/20 := by
  simp only [calculate_initial_depth, initial_depth_from_override]
  rw [if_neg (by norm_num)]
  exact default_min_depth

theorem scenario1_second_component :
    max ((95 : ℚ) - ((100 - 21/20) - 10 * max 0 defaultParams.slope_m_per_m)) (21/20)
      = 21/20 := by
  rw [max_eq_right]
  have hslope : max (0 : ℚ) defaultParams.slope_m_per_m = 1/200 := by
    rw [max_eq_right] <;> norm_num [defaultParams]
  rw [hslope]
  norm_num

theorem scenario1_counterexample :
    (calculate_segment_depths defaultParams
        (calculate_initial_depth defaultParams 100 (some 0) none) 100 95 10) ≠
      (21/20, 5) := by
  rw [scenario1_initial_depth, calculate_segment_depths_eq, default_min_depth,
    scenario1_second_component]
  intro h
  have := congrArg Prod.snd h
  norm_num at this

/-- C5 amended: Scenario 1 computes p1_depth = 1.05 and p2_depth = 1.05
(the minimum-depth floor), because the slope-derived downstream candidate
is negative. -/
theorem scenario1_depths :
    calculate_segment_depths defaultParams
        (calculate_initial_depth defaultParams 100 (some 0) none) 100 95 10 =
      (21/20, 21/20) := by
  rw [scenario1_initial_depth, calculate_segment_depths_eq, default_min_depth,
    scenario1_second_component]

/-- C8: a segment classified orphaned downstream is recalculated from the
minimum depth as its upstream basis, regardless of any stored depth,
convergent query result or network upstream depth
(`_determine_upstream_depth_enhanced` case 1, and identically the
orphaned branch of `_recalculate_segments_depths_in_order`). -/
theorem orphan_reset_minimum_depth (p : HydraulicParams)
    (is_orphaned_upstream is_convergent_affected : Bool)
    (existing_p1_depth convergent_max_depth network_upstream_depth : Option ℚ) :
    Recalculator.determineUpstreamDepthEnhanced p true is_orphaned_upstream
        is_convergent_affected existing_p1_depth convergent_max_depth
        network_upstream_depth =
      calculate_minimum_depth p := rfl

/-- C2: conflict resolution for a convergent-affected segment with stored
upstream depth, tolerance 0.01 m. A calculated depth above existing plus
tolerance is rejected and the existing pair is the one propagated
downstream; one below existing minus tolerance is accepted with the
newly calculated pair; within tolerance the accepted upstream depth is
the larger of the two. -/
theorem convergent_conflict_resolution (existing existing_p2 calc_p1 calc_p2 : ℚ) :
    (existing + 1/100 < calc_p1 →
      enhancedCommitStep true (some existing) (some existing_p2) calc_p1 calc_p2 =
        (false, some (existing, existing_p2))) ∧
    (calc_p1 < existing - 1/100 →
      enhancedCommitStep true (some existing) (some existing_p2) calc_p1 calc_p2 =
        (true, some (calc_p1, calc_p2))) ∧
    (|calc_p1 - existing| ≤ 1/100 →
      enhancedCommitStep true (some existing) (some existing_p2) calc_p1 calc_p2 =
        (if existing ≤ calc_p1 then ((true : Bool), some (calc_p1, calc_p2))
          else (false, some (existing, existing_p2))) ∧
      (enhancedCommitStep true (some existing) (some existing_p2) calc_p1 calc_p2).2.map
          Prod.fst = some (max calc_p1 existing)) := by
  refine ⟨?_, ?_, ?_⟩
  · intro h
    have hchk : checkConvergentDepthConflict (some existing) calc_p1 = false := by
      simp only [checkConvergentDepthConflict]
      rw [if_pos h]
    simp [enhancedCommitStep, hchk]
  · intro h
    have hn1 : ¬ (existing + 1/100 < calc_p1) := by linarith
    have hchk : checkConvergentDepthConflict (some existing) calc_p1 = true := by
      simp only [checkConvergentDepthConflict]
      rw [if_neg hn1, if_pos h]
    simp [enhancedCommitStep, hchk]
  · intro h
    obtain ⟨hl, hr⟩ := abs_le.mp h
    have hn1 : ¬ (existing + 1/100 < calc_p1) := by linarith
    have hn2 : ¬ (calc_p1 < existing - 1/100) := by linarith
    by_cases hle : existing ≤ calc_p1
    · have hmax : max calc_p1 existing = calc_p1 := max_eq_left hle
      have hchk : checkConvergentDepthConflict (some existing) calc_p1 = true := by
        simp only [checkConvergentDepthConflict]
        rw [if_neg hn1, if_neg hn2, if_pos h, if_neg ?_]
        simp [hmax]
      constructor
      · rw [if_pos hle]
        simp [enhancedCommitStep, hchk]
      · simp [enhancedCommitStep, hchk, hmax]
    · have hlt : calc_p1 < existing := lt_of_not_le hle
      have hmax : max calc_p1 existing = existing := max_eq_right (le_of_lt hlt)
      have hchk : checkConvergentDepthConflict (some existing) calc_p1 = false := by
        simp only [checkConvergentDepthConflict]
        rw [if_neg hn1, if_neg hn2, if_pos h, if_pos ?_]
        rw [hmax]
        exact ne_of_gt hlt
      constructor
      · rw [if_neg hle]
        simp [enhancedCommitStep, hchk]
      · simp [enhancedCommitStep, hchk, hmax]

theorem convergentAccum_skip (st : MapperState) (p : HydraulicParams)
    (node_key : ℕ) (force : Bool) (acc : ℚ × ℕ) (sid : ℕ)
    (hc : ¬ isStillConnected st node_key sid = true) :
    convergentAccum st p node_key force acc sid = some acc := by
  rcases hseg : st.segments sid with _ | s
  · simp only [convergentAccum, hseg]
  · simp only [isStillConnected, hseg] at hc
    have hk : ¬ s.downstream_node_key = node_key := by
      intro h
      exact hc (by simp [h])
    simp only [convergentAccum, hseg, if_neg hk]

theorem convergentAccum_connected (st : MapperState) (p : HydraulicParams)
    (node_key : ℕ) (force : Bool)
    (hok : ¬ (force = true ∧ resolveNodeDepth st node_key = none))
    (acc : ℚ × ℕ) (sid : ℕ) (hc : isStillConnected st node_key sid = true) :
    convergentAccum st p node_key force acc sid =
      some (max acc.1 (convergentDepthOf st p node_key force sid), acc.2 + 1) := by
  rcases hseg : st.segments sid with _ | s
  · simp only [isStillConnected, hseg] at hc
    exact Bool.noConfusion hc
  · simp only [isStillConnected, hseg] at hc
    have hk : s.downstream_node_key = node_key := by simpa using hc
    rcases hres : resolveNodeDepth st node_key with _ | d
    · cases force with
      | false =>
        have hdep : convergentDepthOf st p node_key false sid
            = recalcSegmentFromSource st p sid := by
          rw [convergentDepthOf.eq_def, hres]
        rw [hdep]
        simp only [convergentAccum, hseg, hk, hres]
        simp
      | true => exact absurd ⟨rfl, hres⟩ hok
    · cases force with
      | false =>
        have hdep : convergentDepthOf st p node_key false sid = d := by
          rw [convergentDepthOf.eq_def, hres]
        rw [hdep]
        simp only [convergentAccum, hseg, hk, hres]
        simp
      | true =>
        have hdep : convergentDepthOf st p node_key true sid
            = recalcSegmentFromSource st p sid := by
          rw [convergentDepthOf.eq_def, hres]
        rw [hdep]
        simp only [convergentAccum, hseg, hk, hres]
        simp

theorem convergentAccum_fail (st : MapperState) (p : HydraulicParams)
    (node_key : ℕ) (hres : resolveNodeDepth st node_key = none)
    (acc : ℚ × ℕ) (sid : ℕ) (hc : isStillConnected st node_key sid = true) :
    convergentAccum st p node_key true acc sid = none := by
  rcases hseg : st.segments sid with _ | s
  · simp only [isStillConnected, hseg] at hc
    exact Bool.noConfusion hc
  · simp only [isStillConnected, hseg] at hc
    have hk : s.downstream_node_key = node_key := by simpa using hc
    simp only [convergentAccum, hseg, hk, hres]
    simp

theorem convergentFold_nil (st : MapperState) (p : HydraulicParams) (node_key : ℕ)
    (force : Bool) (l : List ℕ)
    (hempty : l.filter (fun sid => isStillConnected st node_key sid) = []) :
    ∀ acc : ℚ × ℕ, convergentFold st p node_key force l acc = some acc := by
  induction l with
  | nil => intro acc; rfl
  | cons x rest ih =>
    intro acc
    rw [List.filter_cons] at hempty
    by_cases hx : isStillConnected st node_key x = true
    · rw [if_pos hx] at hempty
      cases hempty
    · rw [if_neg hx] at hempty
      show (match convergentAccum st p node_key force acc x with
        | none => none
        | some acc2 => convergentFold st p node_key force rest acc2) = some acc
      rw [convergentAccum_skip st p node_key force acc x hx]
      exact ih hempty acc

theorem convergentFold_eval (st : MapperState) (p : HydraulicParams) (node_key : ℕ)
    (force : Bool)
    (hok : ¬ (force = true ∧ resolveNodeDepth st node_key = none)) (l : List ℕ) :
    ∀ acc : ℚ × ℕ,
      convergentFold st p node_key force l acc =
        some ((l.filter (fun sid => isStillConnected st node_key sid)).foldl
            (fun m sid => max m (convergentDepthOf st p node_key force sid)) acc.1,
          acc.2 + (l.filter (fun sid => isStillConnected st node_key sid)).length) := by
  induction l with
  | nil => intro acc; simp [convergentFold]
  | cons x rest ih =>
    intro acc
    show (match convergentAccum st p node_key force acc x with
      | none => none
      | some acc2 => convergentFold st p node_key force rest acc2) = _
    by_cases hx : isStillConnected st node_key x = true
    · rw [convergentAccum_connected st p node_key force hok acc x hx]
      show convergentFold st p node_key force rest
        (max acc.1 (convergentDepthOf st p node_key force x), acc.2 + 1) = _
      rw [ih (max acc.1 (convergentDepthOf st p node_key force x), acc.2 + 1)]
      rw [List.filter_cons, if_pos hx, List.foldl_cons, List.length_cons]
      refine congrArg some (Prod.ext rfl ?_)
      show acc.2 + 1 + _ = acc.2 + (_ + 1)
      omega
    · rw [convergentAccum_skip st p node_key force acc x hx]
      show convergentFold st p node_key force rest acc = _
      rw [ih acc, List.filter_cons, if_neg hx]

theorem convergentFold_fail (st : MapperState) (p : HydraulicParams) (node_key : ℕ)
    (hres : resolveNodeDepth st node_key = none) (l : List ℕ)
    (hne : l.filter (fun sid => isStillConnected st node_key sid) ≠ []) :
    ∀ acc : ℚ × ℕ, convergentFold st p node_key true l acc = none := by
  induction l with
  | nil => exact absurd rfl hne
  | cons x rest ih =>
    intro acc
    show (match convergentAccum st p node_key true acc x with
      | none => none
      | some acc2 => convergentFold st p node_key true rest acc2) = none
    by_cases hx : isStillConnected st node_key x = true
    · rw [convergentAccum_fail st p node_key hres acc x hx]
    · rw [convergentAccum_skip st p node_key true acc x hx]
      rw [List.filter_cons, if_neg hx] at hne
      exact ih hne acc

theorem convergentNodeMaxDepth_eval (st : MapperState) (p : HydraulicParams)
    (node_key : ℕ) (node : NetworkNode) (force : Bool)
    (hnode : st.nodes node_key = some node) (F : ℚ) (n : ℕ)
    (hfold : convergentFold st p node_key force node.upstream_segments (0, 0)
      = some (F, n)) :
    convergentNodeMaxDepth st p node_key force =
      if n = 0 then some (getMinimumDepth p) else some F := by
  simp only [convergentNodeMaxDepth, hnode, hfold]

theorem convergentNodeMaxDepth_fail (st : MapperState) (p : HydraulicParams)
    (node_key : ℕ) (node : NetworkNode) (force : Bool)
    (hnode : st.nodes node_key = some node)
    (hfold : convergentFold st p node_key force node.upstream_segments (0, 0) = none) :
    convergentNodeMaxDepth st p node_key force = none := by
  simp only [convergentNodeMaxDepth, hnode, hfold]

theorem foldl_max_init_le (l : List ℚ) : ∀ a : ℚ, a ≤ l.foldl max a := by
  induction l with
  | nil => intro a; exact le_refl a
  | cons y rest ih =>
    intro a
    rw [List.foldl_cons]
    exact le_trans (le_max_left a y) (ih (max a y))

theorem foldl_max_le (l : List ℚ) : ∀ a x : ℚ, x ∈ l → x ≤ l.foldl max a := by
  induction l with
  | nil => intro a x hx; cases hx
  | cons y rest ih =>
    intro a x hx
    rw [List.foldl_cons]
    rcases List.mem_cons.mp hx with h | h
    · subst h
      exact le_trans (le_max_right a x) (foldl_max_init_le rest (max a x))
    · exact ih (max a y) x h

theorem foldl_max_mem (l : List ℚ) : ∀ a : ℚ, l.foldl max a = a ∨ l.foldl max a ∈ l := by
  induction l with
  | nil => intro a; exact Or.inl rfl
  | cons y rest ih =>
    intro a
    rw [List.foldl_cons]
    rcases ih (max a y) with h | h
    · rcases max_choice a y with hm | hm
      · exact Or.inl (h.trans hm)
      · rw [h, hm]
        exact Or.inr (List.mem_cons_self y rest)
    · exact Or.inr (List.mem_cons_of_mem y h)

/-- C1: at a convergent node, whenever the cascade accepts an
upstream-basis depth, that basis is the maximum of the downstream depths
the loop reads for the upstream segments still currently connected there
(the stored depth resolved at the shared node key when recalculation is
not forced and one resolves, the per-segment freshly recalculated
downstream depth otherwise, all of which are nonnegative whenever
produced by the depth calculator): the basis bounds every connected
depth from above and is attained by one of them. With no connected
upstream segment the basis falls back to the minimum depth. A forced
recalculation with no resolvable stored depth raises `TypeError` in the
debug log and produces no basis at all. In the network analyzer the
convergence handler likewise records the maximum of the per-segment
computed downstream depths at the vertex and hands exactly that maximum
to every newly enqueued downstream segment. -/
theorem convergent_node_accepts_max (st : MapperState) (p : HydraulicParams)
    (node_key : ℕ) (node : NetworkNode) (force : Bool)
    (hnode : st.nodes node_key = some node)
    (p2_key : ℕ) (p2_depth : ℚ) (node_connections : ℕ → List (ℕ × Bool))
    (segment_depths : ℕ → Option (ℚ × ℚ)) (processed : List ℕ)
    (vertex_depths : ℕ → Option ℚ) (queue : List (ℕ × ℚ)) :
    (connectedUpstream st node_key node = [] →
      convergentNodeMaxDepth st p node_key force = some (getMinimumDepth p)) ∧
    (¬ (force = true ∧ resolveNodeDepth st node_key = none) →
      connectedUpstream st node_key node ≠ [] →
      (∀ sid ∈ connectedUpstream st node_key node,
        0 ≤ convergentDepthOf st p node_key force sid) →
      ∃ m, convergentNodeMaxDepth st p node_key force = some m ∧
        (∀ sid ∈ connectedUpstream st node_key node,
          convergentDepthOf st p node_key force sid ≤ m) ∧
        (∃ sid ∈ connectedUpstream st node_key node,
          convergentDepthOf st p node_key force sid = m)) ∧
    (force = true → resolveNodeDepth st node_key = none →
      connectedUpstream st node_key node ≠ [] →
      convergentNodeMaxDepth st p node_key force = none) ∧
    (∀ (d0 : ℚ) (ds : List ℚ),
      1 < (upstreamSegmentsToP2 node_connections p2_key).length →
      (upstreamSegmentsToP2 node_connections p2_key).all
        (fun us => processed.contains us) = true →
      upstreamDepthsAt node_connections segment_depths p2_key = d0 :: ds →
      (handleDownstreamVertex p2_key p2_depth node_connections segment_depths
          processed vertex_depths queue).1 p2_key = some (ds.foldl max d0) ∧
      (∀ x ∈ d0 :: ds, x ≤ ds.foldl max d0) ∧
      ds.foldl max d0 ∈ d0 :: ds ∧
      (∀ pr ∈ (handleDownstreamVertex p2_key p2_depth node_connections segment_depths
          processed vertex_depths queue).2, pr ∈ queue ∨ pr.2 = ds.foldl max d0)) := by
  refine ⟨?_, ?_, ?_, ?_⟩
  · intro hempty
    rw [connectedUpstream] at hempty
    have hfold := convergentFold_nil st p node_key force node.upstream_segments hempty
      ((0 : ℚ), (0 : ℕ))
    have h := convergentNodeMaxDepth_eval st p node_key node force hnode 0 0 hfold
    simpa using h
  · intro hok hne hpos
    rw [connectedUpstream] at hne
    have hfoldraw := convergentFold_eval st p node_key force hok node.upstream_segments
      ((0 : ℚ), (0 : ℕ))
    have hfold : convergentFold st p node_key force node.upstream_segments (0, 0) =
        some ((node.upstream_segments.filter
            (fun sid => isStillConnected st node_key sid)).foldl
            (fun m sid => max m (convergentDepthOf st p node_key force sid)) 0,
          (node.upstream_segments.filter
            (fun sid => isStillConnected st node_key sid)).length) := by
      simpa using hfoldraw
    have hlen : ¬ (node.upstream_segments.filter
        (fun sid => isStillConnected st node_key sid)).length = 0 := by
      simpa [List.length_eq_zero] using hne
    have hval := convergentNodeMaxDepth_eval st p node_key node force hnode _ _ hfold
    rw [if_neg hlen] at hval
    have hMF : ((node.upstream_segments.filter
          (fun sid => isStillConnected st node_key sid)).map
          (convergentDepthOf st p node_key force)).foldl max 0 =
        (node.upstream_segments.filter
          (fun sid => isStillConnected st node_key sid)).foldl
          (fun m sid => max m (convergentDepthOf st p node_key force sid)) 0 :=
      List.foldl_map _ _ _ _
    have hbound : ∀ sid ∈ connectedUpstream st node_key node,
        convergentDepthOf st p node_key force sid ≤
          (node.upstream_segments.filter
            (fun sid => isStillConnected st node_key sid)).foldl
            (fun m sid => max m (convergentDepthOf st p node_key force sid)) 0 := by
      intro sid hsid
      rw [connectedUpstream] at hsid
      have hmem := List.mem_map_of_mem (convergentDepthOf st p node_key force) hsid
      have hle := foldl_max_le _ 0 _ hmem
      rw [hMF] at hle
      exact hle
    refine ⟨_, hval, hbound, ?_⟩
    rcases foldl_max_mem ((node.upstream_segments.filter
        (fun sid => isStillConnected st node_key sid)).map
        (convergentDepthOf st p node_key force)) 0 with h0 | hmem
    · rw [hMF] at h0
      obtain ⟨sid0, hsid0⟩ := List.exists_mem_of_ne_nil _ hne
      refine ⟨sid0, hsid0, le_antisymm (hbound sid0 hsid0) ?_⟩
      rw [h0]
      exact hpos sid0 hsid0
    · rw [hMF] at hmem
      obtain ⟨sid0, hsid0, heq⟩ := List.mem_map.mp hmem
      exact ⟨sid0, hsid0, heq⟩
  · intro hforce hres hne
    rw [connectedUpstream] at hne
    subst hforce
    exact convergentNodeMaxDepth_fail st p node_key node true hnode
      (convergentFold_fail st p node_key hres node.upstream_segments hne ((0 : ℚ), (0 : ℕ)))
  · intro d0 ds hlen hall hdep
    have hred : handleDownstreamVertex p2_key p2_depth node_connections segment_depths
        processed vertex_depths queue =
        ((fun k => if k = p2_key then some (ds.foldl max d0) else vertex_depths k),
          queue ++ ((downstreamSegmentsAt node_connections p2_key).filter
            (fun d2 => !(processed.contains d2))).map
            (fun d2 => (d2, ds.foldl max d0))) := by
      simp only [handleDownstreamVertex]
      rw [if_pos hlen, if_pos hall, hdep]
    refine ⟨?_, ?_, ?_, ?_⟩
    · rw [hred]
      simp
    · intro x hx
      rcases List.mem_cons.mp hx with h | h
      · rw [h]
        exact foldl_max_init_le ds d0
      · exact foldl_max_le ds d0 x h
    · rcases foldl_max_mem ds d0 with h | h
      · rw [h]
        exact List.mem_cons_self d0 ds
      · exact List.mem_cons_of_mem d0 h
    · intro pr hpr
      rw [hred] at hpr
      rcases List.mem_append.mp hpr with h | h
      · exact Or.inl h
      · obtain ⟨d2, hd2mem, heq⟩ := List.mem_map.mp h
        rw [← heq]
        exact Or.inr rfl

/-- The convergent node of Scenario 2 of the spec: node key 5 with two
upstream segments, each fed by its own root, whose freshly recalculated
downstream depths differ (1.10 m and 1.45 m). -/
def scenario2Node : NetworkNode := ⟨5, [1, 2], [3], none, true⟩

def scenario2Root1 : NetworkNode := ⟨10, [], [1], none, false⟩

def scenario2Root2 : NetworkNode := ⟨11, [], [2], none, false⟩

def scenario2Segment1 : NetworkSegment := ⟨1, 10, 5, 10, some 100, some 100, none, none⟩

def scenario2Segment2 : NetworkSegment :=
  ⟨2, 11, 5, 10, some 100, some (2007/20), none, none⟩

/-- No depth is stored at node 5, so the convergent loop recalculates
each upstream segment from its own source chain. -/
def scenario2State : MapperState :=
  ⟨fun k => if k = 5 then some scenario2Node
      else if k = 10 then some scenario2Root1
      else if k = 11 then some scenario2Root2 else none,
    fun i => if i = 1 then some scenario2Segment1
      else if i = 2 then some scenario2Segment2 else none,
    fun _ => none,
    fun _ => none⟩

theorem scenario2_recalc1 :
    recalcSegmentFromSource scenario2State defaultParams 1 = 11/10 := by
  rw [show recalcSegmentFromSource scenario2State defaultParams 1
      = (calculate_segment_depths defaultParams (getMinimumDepth defaultParams)
        100 100 10).2 from rfl, getMinimumDepth, default_min_depth,
    calculate_segment_depths_eq]
  show max ((100 : ℚ) - ((100 - 21/20) - 10 * max 0 defaultParams.slope_m_per_m))
    (calculate_minimum_depth defaultParams) = 11/10
  rw [default_min_depth]
  have hs : max (0 : ℚ) defaultParams.slope_m_per_m = 1/200 := by
    rw [max_eq_right] <;> norm_num [defaultParams]
  rw [hs, show (100 : ℚ) - ((100 - 21/20) - 10 * (1/200)) = 11/10 by norm_num,
    max_eq_left (by norm_num)]

theorem scenario2_recalc2 :
    recalcSegmentFromSource scenario2State defaultParams 2 = 29/20 := by
  rw [show recalcSegmentFromSource scenario2State defaultParams 2
      = (calculate_segment_depths defaultParams (getMinimumDepth defaultParams)
        100 (2007/20) 10).2 from rfl, getMinimumDepth, default_min_depth,
    calculate_segment_depths_eq]
  show max ((2007 : ℚ)/20 - ((100 - 21/20) - 10 * max 0 defaultParams.slope_m_per_m))
    (calculate_minimum_depth defaultParams) = 29/20
  rw [default_min_depth]
  have hs : max (0 : ℚ) defaultParams.slope_m_per_m = 1/200 := by
    rw [max_eq_right] <;> norm_num [defaultParams]
  rw [hs, show (2007 : ℚ)/20 - ((100 - 21/20) - 10 * (1/200)) = 29/20 by norm_num,
    max_eq_left (by norm_num)]

theorem scenario2_dep1 :
    convergentDepthOf scenario2State defaultParams 5 false 1 = 11/10 := by
  rw [show convergentDepthOf scenario2State defaultParams 5 false 1
      = recalcSegmentFromSource scenario2State defaultParams 1 from rfl,
    scenario2_recalc1]

theorem scenario2_dep2 :
    convergentDepthOf scenario2State defaultParams 5 false 2 = 29/20 := by
  rw [show convergentDepthOf scenario2State defaultParams 5 false 2
      = recalcSegmentFromSource scenario2State defaultParams 2 from rfl,
    scenario2_recalc2]

/-- The analyzer-side instance of Scenario 2: segments 1 and 2 flow into
node 5, segment 3 flows out, and the recorded downstream depths of the
inflowing segments are 1.20 m and 1.45 m. -/
def scenario2Connections : ℕ → List (ℕ × Bool) :=
  fun k => if k = 5 then [(1, false), (2, false), (3, true)] else []

def scenario2SegmentDepths : ℕ → Option (ℚ × ℚ) :=
  fun i => if i = 1 then some (21/20, 6/5)
    else if i = 2 then some (21/20, 29/20) else none

/-- Witness for C1. Tree mapper: at the Scenario 2 state the two
connected upstream segments recalculate to the distinct depths 1.10 m
and 1.45 m and the accepted basis is a maximum of them (so 1.45 m).
Analyzer: with recorded depths 1.20 m and 1.45 m converging at node 5
the vertex depth becomes their maximum 1.45 m. -/
theorem convergent_node_accepts_max_witness :
    (connectedUpstream scenario2State 5 scenario2Node = [1, 2] ∧
      convergentDepthOf scenario2State defaultParams 5 false 1 = 11/10 ∧
      convergentDepthOf scenario2State defaultParams 5 false 2 = 29/20 ∧
      (∃ m, convergentNodeMaxDepth scenario2State defaultParams 5 false = some m ∧
        (∀ sid ∈ connectedUpstream scenario2State 5 scenario2Node,
          convergentDepthOf scenario2State defaultParams 5 false sid ≤ m) ∧
        (∃ sid ∈ connectedUpstream scenario2State 5 scenario2Node,
          convergentDepthOf scenario2State defaultParams 5 false sid = m)) ∧
      convergentNodeMaxDepth scenario2State defaultParams 5 false = some (29/20)) ∧
    (upstreamDepthsAt scenario2Connections scenario2SegmentDepths 5 = [6/5, 29/20] ∧
      (handleDownstreamVertex 5 (29/20) scenario2Connections scenario2SegmentDepths
        [1, 2] (fun _ => none) []).1 5 = some ([(29 : ℚ)/20].foldl max (6/5)) ∧
      [(29 : ℚ)/20].foldl max (6/5) = 29/20) := by
  have hconn : connectedUpstream scenario2State 5 scenario2Node = [1, 2] := rfl
  have hne : connectedUpstream scenario2State 5 scenario2Node ≠ [] := by
    rw [hconn]
    simp
  have hok : ¬ (false = true ∧ resolveNodeDepth scenario2State 5 = none) := by
    simp
  have hpos : ∀ sid ∈ connectedUpstream scenario2State 5 scenario2Node,
      0 ≤ convergentDepthOf scenario2State defaultParams 5 false sid := by
    intro sid hsid
    rw [hconn] at hsid
    rcases List.mem_cons.mp hsid with h | h
    · rw [h, scenario2_dep1]
      norm_num
    · rcases List.mem_cons.mp h with h2 | h2
      · rw [h2, scenario2_dep2]
        norm_num
      · cases h2
  have hmain := convergent_node_accepts_max scenario2State defaultParams 5 scenario2Node
    false rfl 5 (29/20) scenario2Connections scenario2SegmentDepths [1, 2]
    (fun _ => none) []
  have hana := hmain.2.2.2 (6/5) [29/20] (by decide) (by decide) rfl
  have hvalue : convergentNodeMaxDepth scenario2State defaultParams 5 false
      = some (29/20) := by
    rw [show convergentNodeMaxDepth scenario2State defaultParams 5 false
        = some (max (max 0 (recalcSegmentFromSource scenario2State defaultParams 1))
          (recalcSegmentFromSource scenario2State defaultParams 2)) from rfl,
      scenario2_recalc1, scenario2_recalc2,
      show max (0 : ℚ) (11/10) = 11/10 from max_eq_right (by norm_num),
      show max ((11 : ℚ)/10) (29/20) = 29/20 from max_eq_right (by norm_num)]
  exact ⟨⟨hconn, scenario2_dep1, scenario2_dep2, hmain.2.1 hok hne hpos, hvalue⟩,
    rfl, hana.1, show max ((6 : ℚ)/5) (29/20) = 29/20 from max_eq_right (by norm_num)⟩

theorem commitSmart_parts (st : MapperState) (cn : List ℕ)
    (segment : NetworkSegment) (a b : ℚ) :
    (commitSmart st cn segment a b).1.recalculated = true ∧
    (commitSmart st cn segment a b).1.cascade_stopped = false ∧
    (commitSmart st cn segment a b).2.2 = some (roundTo2 a, roundTo2 b) := by
  by_cases h : segment.downstream_node_key ∈ cn
  · simp [commitSmart, h]
  · simp [commitSmart, h]

/-- C3 amended: for a segment visited by the smart cascade with a stored
downstream depth, whenever the smart upstream-depth computation returns
a value the new depths are committed iff the new downstream depth
differs from the stored one by at least 0.01 m; strictly below 0.01 m
the cascade stops with no write. The convergent, topology-changed and
orphaned flags play no role in this decision: the convergent node list
only influences the computed upstream depth and the bookkeeping of the
committed value. When the upstream-depth computation raises instead (a
forced convergent recalculation with no resolvable stored depth), the
catch-all skips the segment: all flags stay false, nothing is written
and the state is untouched, again regardless of any flags. -/
theorem cascade_commit_threshold (st : MapperState) (p : HydraulicParams)
    (elevation_updates : ℕ → Option ℚ × Option ℚ)
    (convergent_nodes affected_convergent : List ℕ) (feature_id : ℕ)
    (segment : NetworkSegment) (hseg : st.segments feature_id = some segment)
    (p1_elev p2_elev : ℚ)
    (h1 : getUpdatedElevation (elevation_updates feature_id).1 segment.p1_elevation = some p1_elev)
    (h2 : getUpdatedElevation (elevation_updates feature_id).2 segment.p2_elevation = some p2_elev)
    (current_p2_depth : ℚ)
    (hcur : st.current_depths segment.downstream_node_key = some current_p2_depth) :
    (∀ up d2 : ℚ,
      getUpstreamDepthSmart st p convergent_nodes affected_convergent segment = some up →
      (calculate_segment_depths p up p1_elev p2_elev segment.length).2 = d2 →
      ((processSegmentSmartCascade st p elevation_updates convergent_nodes
          affected_convergent feature_id).1.recalculated = true ↔
        1/100 ≤ |d2 - current_p2_depth|) ∧
      ((processSegmentSmartCascade st p elevation_updates convergent_nodes
          affected_convergent feature_id).1.cascade_stopped = true ↔
        |d2 - current_p2_depth| < 1/100) ∧
      ((processSegmentSmartCascade st p elevation_updates convergent_nodes
          affected_convergent feature_id).2.2 = none ↔
        |d2 - current_p2_depth| < 1/100)) ∧
    (getUpstreamDepthSmart st p convergent_nodes affected_convergent segment = none →
      (processSegmentSmartCascade st p elevation_updates convergent_nodes
          affected_convergent feature_id).1.recalculated = false ∧
      (processSegmentSmartCascade st p elevation_updates convergent_nodes
          affected_convergent feature_id).1.cascade_stopped = false ∧
      (processSegmentSmartCascade st p elevation_updates convergent_nodes
          affected_convergent feature_id).2.2 = none ∧
      (processSegmentSmartCascade st p elevation_updates convergent_nodes
          affected_convergent feature_id).2.1 = st) := by
  constructor
  · intro up d2 hup hd2
    simp only [processSegmentSmartCascade, hseg, h1, h2, hup, hcur, hd2]
    by_cases hbig : current_p2_depth + 1/100 < d2 ∨ 1/10 < |d2 - current_p2_depth|
    · have h1cm : 1/100 ≤ |d2 - current_p2_depth| := by
        rcases hbig with h | h
        · calc (1 : ℚ)/100 ≤ d2 - current_p2_depth := by linarith
            _ ≤ |d2 - current_p2_depth| := le_abs_self _
        · linarith [le_of_lt h]
      rw [if_pos hbig]
      obtain ⟨ha, hb, hc⟩ := commitSmart_parts st convergent_nodes segment _ d2
      refine ⟨?_, ?_, ?_⟩
      · rw [ha]
        exact iff_of_true rfl h1cm
      · rw [hb]
        exact iff_of_false (by simp) (not_lt.mpr h1cm)
      · rw [hc]
        exact iff_of_false (by simp) (not_lt.mpr h1cm)
    · rw [if_neg hbig]
      by_cases hsmall : |d2 - current_p2_depth| < 1/100
      · rw [if_pos hsmall]
        exact ⟨iff_of_false (by simp) (not_le.mpr hsmall), iff_of_true rfl hsmall,
          iff_of_true rfl hsmall⟩
      · rw [if_neg hsmall]
        have h1cm : 1/100 ≤ |d2 - current_p2_depth| := not_lt.mp hsmall
        exact ⟨iff_of_true rfl h1cm, iff_of_false (by simp) (not_lt.mpr h1cm),
          iff_of_false (by simp) (not_lt.mpr h1cm)⟩
  · intro hnone
    simp only [processSegmentSmartCascade, hseg, h1, h2, hnone]
    exact ⟨trivial, trivial, trivial, trivial⟩

/-- The segment used by the C3 counterexamples: node keys 0 to 1, length
10 m, both elevations 100 m. At upstream basis 1.05 the computed
downstream depth is 1.10. -/
def c3Segment : NetworkSegment := ⟨1, 0, 1, 10, some 100, some 100, none, none⟩

/-- State with stored downstream depth exactly equal to the computed
1.10: the cascade stops even though node 1 is a tracked convergent
node. -/
def c3StateA : MapperState :=
  ⟨fun _ => none,
    fun i => if i = 1 then some c3Segment else none,
    fun k => if k = 1 then some (11/10) else none,
    fun _ => none⟩

/-- State with stored downstream depth 1.09, exactly 0.01 m below the
computed 1.10: the code still commits. -/
def c3StateB : MapperState :=
  ⟨fun _ => none,
    fun i => if i = 1 then some c3Segment else none,
    fun k => if k = 1 then some (109/100) else none,
    fun _ => none⟩

/-- Upstream node for the exception part of the C3 witness: a
convergent node 0 with upstream segment 2 still connected there and no
stored depth resolvable at it. -/
def c3NodeC : NetworkNode := ⟨0, [2], [1], none, true⟩

def c3SegmentC : NetworkSegment := ⟨2, 9, 0, 10, some 101, some 100, none, none⟩

/-- State where the upstream node of the visited segment is convergent,
marked affected (forcing recalculation), and no depth resolves at it, so
`_get_convergent_node_max_depth` raises `TypeError` in its debug log. -/
def c3StateC : MapperState :=
  ⟨fun k => if k = 0 then some c3NodeC else none,
    fun i => if i = 1 then some c3Segment else if i = 2 then some c3SegmentC else none,
    fun k => if k = 1 then some (11/10) else none,
    fun _ => none⟩

theorem c3_upstream_eval_A :
    getUpstreamDepthSmart c3StateA defaultParams [1] [] c3Segment = some (21/20) := by
  rw [show getUpstreamDepthSmart c3StateA defaultParams [1] [] c3Segment
      = some (getMinimumDepth defaultParams) from rfl, getMinimumDepth, default_min_depth]

theorem c3_upstream_eval_B :
    getUpstreamDepthSmart c3StateB defaultParams [] [] c3Segment = some (21/20) := by
  rw [show getUpstreamDepthSmart c3StateB defaultParams [] [] c3Segment
      = some (getMinimumDepth defaultParams) from rfl, getMinimumDepth, default_min_depth]

theorem c3_upstream_fail_C :
    getUpstreamDepthSmart c3StateC defaultParams [] [0] c3Segment = none := rfl

theorem c3_depth_eval :
    (calculate_segment_depths defaultParams (21/20) 100 100 10).2 = 11/10 := by
  rw [calculate_segment_depths_eq]
  show max ((100 : ℚ) - ((100 - 21/20) - 10 * max 0 defaultParams.slope_m_per_m))
    (calculate_minimum_depth defaultParams) = 11/10
  rw [default_min_depth]
  have hs : max (0 : ℚ) defaultParams.slope_m_per_m = 1/200 := by
    rw [max_eq_right] <;> norm_num [defaultParams]
  rw [hs, show (100 : ℚ) - ((100 - 21/20) - 10 * (1/200)) = 11/10 by norm_num,
    max_eq_left (by norm_num)]

theorem c3_depth_eval_len :
    (calculate_segment_depths defaultParams (21/20) 100 100 c3Segment.length).2
      = 11/10 := by
  rw [show c3Segment.length = (10 : ℚ) from rfl]
  exact c3_depth_eval

/-- C3 counterexample: (i) a segment whose downstream node is in the
tracked convergent set, with a sub-threshold change, is stopped and not
committed — so a convergent-flagged segment does not always propagate;
(ii) an unflagged segment whose depth changes by exactly 0.01 m is
committed — so commits are not restricted to changes strictly above
0.01 m. -/
theorem cascade_commit_counterexample :
    c3Segment.downstream_node_key ∈ [1] ∧
    (processSegmentSmartCascade c3StateA defaultParams (fun _ => (none, none))
      [1] [] 1).1.recalculated = false ∧
    (processSegmentSmartCascade c3StateA defaultParams (fun _ => (none, none))
      [1] [] 1).1.cascade_stopped = true ∧
    (processSegmentSmartCascade c3StateB defaultParams (fun _ => (none, none))
      [] [] 1).1.recalculated = true := by
  have hsegA : c3StateA.segments 1 = some c3Segment := rfl
  have hsegB : c3StateB.segments 1 = some c3Segment := rfl
  have he1 : getUpdatedElevation ((fun _ => ((none : Option ℚ), (none : Option ℚ))) 1).1
      c3Segment.p1_elevation = some 100 := rfl
  have he2 : getUpdatedElevation ((fun _ => ((none : Option ℚ), (none : Option ℚ))) 1).2
      c3Segment.p2_elevation = some 100 := rfl
  have hcurA : c3StateA.current_depths c3Segment.downstream_node_key = some (11/10) := rfl
  have hcurB : c3StateB.current_depths c3Segment.downstream_node_key = some (109/100) := rfl
  have hcondA : ¬ ((11 : ℚ)/10 + 1/100 < 11/10 ∨ 1/10 < |(11 : ℚ)/10 - 11/10|) := by
    rw [sub_self, abs_zero]
    norm_num
  have hcondA2 : |(11 : ℚ)/10 - 11/10| < 1/100 := by
    rw [sub_self, abs_zero]
    norm_num
  have hcondB : ¬ ((109 : ℚ)/100 + 1/100 < 11/10 ∨ 1/10 < |(11 : ℚ)/10 - 109/100|) := by
    rw [show (11 : ℚ)/10 - 109/100 = 1/100 by norm_num]
    rw [show |(1 : ℚ)/100| = 1/100 from abs_of_pos (by norm_num)]
    norm_num
  have hcondB2 : ¬ (|(11 : ℚ)/10 - 109/100| < 1/100) := by
    rw [show (11 : ℚ)/10 - 109/100 = 1/100 by norm_num]
    rw [show |(1 : ℚ)/100| = 1/100 from abs_of_pos (by norm_num)]
    norm_num
  have hlen : c3Segment.length = 10 := rfl
  refine ⟨by simp [c3Segment], ?_, ?_, ?_⟩
  · simp only [processSegmentSmartCascade, hsegA, he1, he2, c3_upstream_eval_A, hcurA,
      hlen, c3_depth_eval]
    rw [if_neg hcondA, if_pos hcondA2]
  · simp only [processSegmentSmartCascade, hsegA, he1, he2, c3_upstream_eval_A, hcurA,
      hlen, c3_depth_eval]
    rw [if_neg hcondA, if_pos hcondA2]
  · simp only [processSegmentSmartCascade, hsegB, he1, he2, c3_upstream_eval_B, hcurB,
      hlen, c3_depth_eval]
    rw [if_neg hcondB, if_neg hcondB2]

/-- Witness for the amended C3: the concrete stopped state exercises the
threshold equivalences, and the forced-convergent state with no
resolvable stored depth exercises the exception path (segment skipped,
all flags false, state untouched). -/
theorem cascade_commit_threshold_witness :
    (((processSegmentSmartCascade c3StateA defaultParams (fun _ => (none, none))
        [1] [] 1).1.recalculated = true ↔ 1/100 ≤ |(11 : ℚ)/10 - 11/10|) ∧
      ((processSegmentSmartCascade c3StateA defaultParams (fun _ => (none, none))
        [1] [] 1).1.cascade_stopped = true ↔ |(11 : ℚ)/10 - 11/10| < 1/100) ∧
      ((processSegmentSmartCascade c3StateA defaultParams (fun _ => (none, none))
        [1] [] 1).2.2 = none ↔ |(11 : ℚ)/10 - 11/10| < 1/100)) ∧
    ((processSegmentSmartCascade c3StateC defaultParams (fun _ => (none, none))
        [] [0] 1).1.recalculated = false ∧
      (processSegmentSmartCascade c3StateC defaultParams (fun _ => (none, none))
        [] [0] 1).1.cascade_stopped = false ∧
      (processSegmentSmartCascade c3StateC defaultParams (fun _ => (none, none))
        [] [0] 1).2.2 = none ∧
      (processSegmentSmartCascade c3StateC defaultParams (fun _ => (none, none))
        [] [0] 1).2.1 = c3StateC) :=
  ⟨(cascade_commit_threshold c3StateA defaultParams (fun _ => (none, none)) [1] [] 1
      c3Segment rfl 100 100 rfl rfl (11/10) rfl).1 (21/20) (11/10)
      c3_upstream_eval_A c3_depth_eval_len,
    (cascade_commit_threshold c3StateC defaultParams (fun _ => (none, none)) [] [0] 1
      c3Segment rfl 100 100 rfl rfl (11/10) rfl).2 c3_upstream_fail_C⟩

/-- Witness for C2: all three branches of the conflict resolver at
concrete inputs. -/
theorem convergent_conflict_resolution_witness :
    ((1 : ℚ) + 1/100 < 2 ∧
      enhancedCommitStep true (some 1) (some 2) 2 3 = (false, some (1, 2))) ∧
    ((1 : ℚ) < 2 - 1/100 ∧
      enhancedCommitStep true (some 2) (some 3) 1 (3/2) = (true, some (1, 3/2))) ∧
    (|(2 : ℚ) - 2| ≤ 1/100 ∧
      (enhancedCommitStep true (some 2) (some 3) 2 4).2.map Prod.fst = some (max 2 2)) :=
  ⟨⟨by norm_num, (convergent_conflict_resolution 1 2 2 3).1 (by norm_num)⟩,
    ⟨by norm_num, (convergent_conflict_resolution 2 3 1 (3/2)).2.1 (by norm_num)⟩,
    ⟨by norm_num, ((convergent_conflict_resolution 2 3 2 4).2.2 (by norm_num)).2⟩⟩

theorem graphSucc_mem (st : MapperState) (ids : List ℕ) (a b : ℕ) :
    b ∈ graphSucc st ids a ↔ b ∈ ids ∧ a ∈ upstreamAffected st ids b := by
  simp only [graphSucc, List.mem_flatMap, List.mem_replicate]
  constructor
  · rintro ⟨x, hx, hcount, rfl⟩
    refine ⟨hx, ?_⟩
    have := Nat.pos_of_ne_zero hcount
    exact List.count_pos_iff.mp this
  · rintro ⟨hb, ha⟩
    exact ⟨b, hb, Nat.pos_iff_ne_zero.mp (List.count_pos_iff.mpr ha), rfl⟩

theorem decNeighbors_cons (d : ℕ → ℤ) (n : ℕ) (rest : List ℕ) :
    decNeighbors d (n :: rest) =
      (if d n - 1 = 0
        then ((decNeighbors (fun x => if x = n then d x - 1 else d x) rest).1,
          n :: (decNeighbors (fun x => if x = n then d x - 1 else d x) rest).2)
        else decNeighbors (fun x => if x = n then d x - 1 else d x) rest) := by
  simp [decNeighbors]

theorem decNeighbors_fst (ns : List ℕ) : ∀ (d : ℕ → ℤ) (x : ℕ),
    (decNeighbors d ns).1 x = d x - ns.count x := by
  induction ns with
  | nil => intro d x; simp [decNeighbors]
  | cons n rest ih =>
    intro d x
    rw [decNeighbors_cons]
    have hmain : (decNeighbors (fun y => if y = n then d y - 1 else d y) rest).1 x
        = d x - (n :: rest).count x := by
      rw [ih]
      by_cases hxn : x = n
      · subst hxn
        rw [if_pos rfl, List.count_cons_self]
        push_cast
        omega
      · rw [if_neg hxn, List.count_cons_of_ne hxn]
    by_cases hz : d n - 1 = 0
    · rw [if_pos hz]
      exact hmain
    · rw [if_neg hz]
      exact hmain

theorem decNeighbors_ready_sublist (ns : List ℕ) : ∀ d : ℕ → ℤ,
    (decNeighbors d ns).2.Sublist ns := by
  induction ns with
  | nil => intro d; simp [decNeighbors]
  | cons n rest ih =>
    intro d
    rw [decNeighbors_cons]
    by_cases hz : d n - 1 = 0
    · rw [if_pos hz]
      exact List.cons_sublist_cons.mpr (ih _)
    · rw [if_neg hz]
      exact List.Sublist.cons n (ih _)

theorem decNeighbors_ready_pos (ns : List ℕ) : ∀ (d : ℕ → ℤ) (b : ℕ),
    b ∈ (decNeighbors d ns).2 → 0 < d b := by
  induction ns with
  | nil => intro d b h; simp [decNeighbors] at h
  | cons n rest ih =>
    intro d b h
    rw [decNeighbors_cons] at h
    by_cases hz : d n - 1 = 0
    · rw [if_pos hz] at h
      rcases List.mem_cons.mp h with rfl | hmem
      · omega
      · have := ih _ b hmem
        by_cases hbn : b = n
        · subst hbn
          rw [if_pos rfl] at this
          omega
        · rwa [if_neg hbn] at this
    · rw [if_neg hz] at h
      have := ih _ b h
      by_cases hbn : b = n
      · subst hbn
        rw [if_pos rfl] at this
        omega
      · rwa [if_neg hbn] at this

theorem decNeighbors_ready_final_nonpos (ns : List ℕ) : ∀ (d : ℕ → ℤ) (b : ℕ),
    b ∈ (decNeighbors d ns).2 → (decNeighbors d ns).1 b ≤ 0 := by
  induction ns with
  | nil => intro d b h; simp [decNeighbors] at h
  | cons n rest ih =>
    intro d b h
    rw [decNeighbors_cons] at h ⊢
    by_cases hz : d n - 1 = 0
    · rw [if_pos hz] at h ⊢
      rcases List.mem_cons.mp h with rfl | hmem
      · show (decNeighbors _ rest).1 b ≤ 0
        rw [decNeighbors_fst]
        rw [if_pos rfl]
        have : (0 : ℤ) ≤ rest.count b := Int.ofNat_nonneg _
        omega
      · exact ih _ b hmem
    · rw [if_neg hz] at h ⊢
      exact ih _ b h

theorem decNeighbors_ready_nodup (ns : List ℕ) : ∀ d : ℕ → ℤ,
    (decNeighbors d ns).2.Nodup := by
  induction ns with
  | nil => intro d; simp [decNeighbors]
  | cons n rest ih =>
    intro d
    rw [decNeighbors_cons]
    by_cases hz : d n - 1 = 0
    · rw [if_pos hz]
      refine List.nodup_cons.mpr ⟨?_, ih _⟩
      intro hmem
      have := decNeighbors_ready_pos rest _ n hmem
      rw [if_pos rfl] at this
      omega
    · rw [if_neg hz]
      exact ih _

theorem sum_toNat_mono (ids : List ℕ) (d d2 : ℕ → ℤ) (h : ∀ i ∈ ids, d2 i ≤ d i) :
    (ids.map fun i => (d2 i).toNat).sum ≤ (ids.map fun i => (d i).toNat).sum :=
  List.sum_le_sum (fun i hi => Int.toNat_le_toNat (h i hi))

theorem sum_toNat_dec (ids : List ℕ) (n : ℕ) (d : ℕ → ℤ) (hn : n ∈ ids) (h1 : d n = 1) :
    (ids.map fun i => (if i = n then d i - 1 else d i).toNat).sum + 1 ≤
      (ids.map fun i => (d i).toNat).sum := by
  induction ids with
  | nil => cases hn
  | cons i rest ih =>
    simp only [List.map_cons, List.sum_cons]
    by_cases hin : i = n
    · subst hin
      rw [if_pos rfl, h1]
      have hmono : (rest.map fun j => (if j = i then d j - 1 else d j).toNat).sum ≤
          (rest.map fun j => (d j).toNat).sum := by
        refine sum_toNat_mono rest d _ (fun j _ => ?_)
        by_cases hj : j = i
        · rw [if_pos hj]; omega
        · rw [if_neg hj]
      simp only [show ((1 : ℤ) - 1).toNat = 0 by rfl, show ((1 : ℤ)).toNat = 1 by rfl]
      omega
    · rw [if_neg hin]
      have hnr : n ∈ rest := by
        rcases List.mem_cons.mp hn with h | h
        · exact absurd h.symm hin
        · exact h
      have := ih hnr
      omega

theorem decNeighbors_sum (ids : List ℕ) (ns : List ℕ) :
    ∀ d : ℕ → ℤ, (∀ x ∈ ns, x ∈ ids) →
      (ids.map fun i => ((decNeighbors d ns).1 i).toNat).sum + (decNeighbors d ns).2.length ≤
        (ids.map fun i => (d i).toNat).sum := by
  induction ns with
  | nil => intro d h; simp [decNeighbors]
  | cons n rest ih =>
    intro d hsub
    rw [decNeighbors_cons]
    have hn : n ∈ ids := hsub n (List.mem_cons_self n rest)
    have hrest : ∀ x ∈ rest, x ∈ ids := fun x hx => hsub x (List.mem_cons_of_mem n hx)
    by_cases hz : d n - 1 = 0
    · rw [if_pos hz]
      simp only [List.length_cons]
      have h1 : d n = 1 := by omega
      have hstep := sum_toNat_dec ids n d hn h1
      have hih := ih (fun x => if x = n then d x - 1 else d x) hrest
      simp only [] at hstep hih ⊢
      omega
    · rw [if_neg hz]
      have hmono : (ids.map fun i => (if i = n then d i - 1 else d i).toNat).sum ≤
          (ids.map fun i => (d i).toNat).sum := by
        refine sum_toNat_mono ids d _ (fun j _ => ?_)
        by_cases hj : j = n
        · rw [if_pos hj]; omega
        · rw [if_neg hj]
      have hih := ih (fun x => if x = n then d x - 1 else d x) hrest
      simp only [] at hmono hih ⊢
      omega

theorem kahnAuxFuel_nil (graph : ℕ → List ℕ) (f : ℕ) (d : ℕ → ℤ) (res : List ℕ) :
    kahnAuxFuel graph f [] d res = res := by
  cases f <;> rfl

theorem kahnAuxFuel_zero (graph : ℕ → List ℕ) (q : List ℕ) (d : ℕ → ℤ) (res : List ℕ) :
    kahnAuxFuel graph 0 q d res = res := by
  cases q <;> rfl

theorem kahnAuxFuel_succ (graph : ℕ → List ℕ) (f : ℕ) (c : ℕ) (rest : List ℕ)
    (d : ℕ → ℤ) (res : List ℕ) :
    kahnAuxFuel graph (f + 1) (c :: rest) d res =
      kahnAuxFuel graph f (rest ++ (decNeighbors d (graph c)).2)
        (decNeighbors d (graph c)).1 (res ++ [c]) := rfl

theorem kahnMeasure_step (ids : List ℕ) (graph : ℕ → List ℕ) (c : ℕ) (rest : List ℕ)
    (d : ℕ → ℤ) (hg : ∀ x ∈ graph c, x ∈ ids) :
    kahnMeasure ids (decNeighbors d (graph c)).1 (rest ++ (decNeighbors d (graph c)).2) <
      kahnMeasure ids d (c :: rest) := by
  have := decNeighbors_sum ids (graph c) d hg
  simp only [kahnMeasure, List.length_append, List.length_cons]
  omega

theorem kahnAuxFuel_congr (ids : List ℕ) (graph : ℕ → List ℕ)
    (hg : ∀ a : ℕ, ∀ x ∈ graph a, x ∈ ids) :
    ∀ (fuel fuel2 : ℕ) (q : List ℕ) (d : ℕ → ℤ) (res : List ℕ),
      kahnMeasure ids d q < fuel → kahnMeasure ids d q < fuel2 →
      kahnAuxFuel graph fuel q d res = kahnAuxFuel graph fuel2 q d res := by
  intro fuel
  induction fuel with
  | zero => intro fuel2 q d res h _; exact absurd h (Nat.not_lt_zero _)
  | succ f ih =>
    intro fuel2 q d res h1 h2
    cases q with
    | nil => rw [kahnAuxFuel_nil, kahnAuxFuel_nil]
    | cons c rest =>
      have hm := kahnMeasure_step ids graph c rest d (hg c)
      cases fuel2 with
      | zero => exact absurd h2 (Nat.not_lt_zero _)
      | succ f2 =>
        rw [kahnAuxFuel_succ, kahnAuxFuel_succ]
        exact ih f2 _ _ _ (by omega) (by omega)

theorem kahnAuxFuel_res_prefix (graph : ℕ → List ℕ) :
    ∀ (fuel : ℕ) (q : List ℕ) (d : ℕ → ℤ) (res : List ℕ),
      ∃ tail, kahnAuxFuel graph fuel q d res = res ++ tail := by
  intro fuel
  induction fuel with
  | zero =>
    intro q d res
    exact ⟨[], by rw [kahnAuxFuel_zero, List.append_nil]⟩
  | succ f ih =>
    intro q d res
    cases q with
    | nil => exact ⟨[], by rw [kahnAuxFuel_nil, List.append_nil]⟩
    | cons c rest =>
      obtain ⟨tail, ht⟩ := ih (rest ++ (decNeighbors d (graph c)).2)
        (decNeighbors d (graph c)).1 (res ++ [c])
      refine ⟨c :: tail, ?_⟩
      rw [kahnAuxFuel_succ, ht]
      simp

theorem kahnAuxFuel_queue_prefix (ids : List ℕ) (graph : ℕ → List ℕ)
    (hg : ∀ a : ℕ, ∀ x ∈ graph a, x ∈ ids) :
    ∀ (fuel : ℕ) (q : List ℕ) (d : ℕ → ℤ) (res : List ℕ),
      kahnMeasure ids d q < fuel →
      ∃ tail, kahnAuxFuel graph fuel q d res = res ++ q ++ tail := by
  intro fuel
  induction fuel with
  | zero => intro q d res h; exact absurd h (Nat.not_lt_zero _)
  | succ f ih =>
    intro q d res h
    cases q with
    | nil => exact ⟨[], by rw [kahnAuxFuel_nil]; simp⟩
    | cons c rest =>
      have hm := kahnMeasure_step ids graph c rest d (hg c)
      obtain ⟨tail, ht⟩ := ih (rest ++ (decNeighbors d (graph c)).2)
        (decNeighbors d (graph c)).1 (res ++ [c]) (by omega)
      refine ⟨(decNeighbors d (graph c)).2 ++ tail, ?_⟩
      rw [kahnAuxFuel_succ, ht]
      simp

theorem kahn_perm_master (ids : List ℕ) (graph : ℕ → List ℕ)
    (hg : ∀ a : ℕ, ∀ x ∈ graph a, x ∈ ids) :
    ∀ (fuel : ℕ) (q : List ℕ) (d : ℕ → ℤ) (res : List ℕ),
      (∀ b ∈ q, b ∈ ids) → (∀ b ∈ res, b ∈ ids) → (res ++ q).Nodup →
      (∀ b : ℕ, b ∈ q ∨ b ∈ res → d b ≤ 0) →
      (kahnAuxFuel graph fuel q d res).Nodup ∧
        ∀ x ∈ kahnAuxFuel graph fuel q d res, x ∈ ids := by
  intro fuel
  induction fuel with
  | zero =>
    intro q d res hq hres hnd hdz
    rw [kahnAuxFuel_zero]
    exact ⟨(List.nodup_append.mp hnd).1, hres⟩
  | succ f ih =>
    intro q d res hq hres hnd hdz
    cases q with
    | nil =>
      rw [kahnAuxFuel_nil]
      exact ⟨(List.nodup_append.mp hnd).1, hres⟩
    | cons c rest =>
      rw [kahnAuxFuel_succ]
      apply ih
      · intro b hb
        rcases List.mem_append.mp hb with h | h
        · exact hq b (List.mem_cons_of_mem c h)
        · exact hg c b ((decNeighbors_ready_sublist (graph c) d).subset h)
      · intro b hb
        rcases List.mem_append.mp hb with h | h
        · exact hres b h
        · rw [List.mem_singleton] at h
          rw [h]
          exact hq c (List.mem_cons_self c rest)
      · have hshape : (res ++ [c]) ++ (rest ++ (decNeighbors d (graph c)).2)
            = (res ++ c :: rest) ++ (decNeighbors d (graph c)).2 := by
          simp
        rw [hshape]
        refine List.nodup_append.mpr ⟨hnd, decNeighbors_ready_nodup (graph c) d, ?_⟩
        intro b hb hb2
        have hpos := decNeighbors_ready_pos (graph c) d b hb2
        have hnonpos : d b ≤ 0 := hdz b (by
          rcases List.mem_append.mp hb with h | h
          · exact Or.inr h
          · exact Or.inl h)
        omega
      · intro b hb
        have hcount : (0 : ℤ) ≤ ((graph c).count b : ℤ) := Int.ofNat_nonneg _
        rcases hb with hb | hb
        · rcases List.mem_append.mp hb with h | h
          · have hb0 := hdz b (Or.inl (List.mem_cons_of_mem c h))
            rw [decNeighbors_fst]
            omega
          · exact decNeighbors_ready_final_nonpos (graph c) d b h
        · rcases List.mem_append.mp hb with h | h
          · have hb0 := hdz b (Or.inr h)
            rw [decNeighbors_fst]
            omega
          · rw [List.mem_singleton] at h
            rw [h, decNeighbors_fst]
            have hb0 := hdz c (Or.inl (List.mem_cons_self c rest))
            have hcount2 : (0 : ℤ) ≤ ((graph c).count c : ℤ) := Int.ofNat_nonneg _
            omega

theorem kahnOrdered_nodup_subset (st : MapperState) (ids : List ℕ) (hids : ids.Nodup) :
    (kahnOrdered st ids).Nodup ∧ ∀ x ∈ kahnOrdered st ids, x ∈ ids := by
  have hg : ∀ a : ℕ, ∀ x ∈ graphSucc st ids a, x ∈ ids :=
    fun a x hx => ((graphSucc_mem st ids a x).mp hx).1
  have hq0 : ∀ b ∈ initialQueue st ids, b ∈ ids :=
    fun b hb => List.mem_of_mem_filter hb
  have hnd : (([] : List ℕ) ++ initialQueue st ids).Nodup := by
    simpa [initialQueue] using List.Nodup.filter _ hids
  have hdz : ∀ b : ℕ, b ∈ initialQueue st ids ∨ b ∈ ([] : List ℕ) →
      initialInDegree st ids b ≤ 0 := by
    intro b hb
    rcases hb with hb | hb
    · have := (List.mem_filter.mp hb).2
      have heq : initialInDegree st ids b = 0 := by
        exact beq_iff_eq.mp this
      omega
    · cases hb
  have := kahn_perm_master ids (graphSucc st ids) hg
    (kahnMeasure ids (initialInDegree st ids) (initialQueue st ids) + 1)
    (initialQueue st ids) (initialInDegree st ids) [] hq0
    (fun b hb => absurd hb (List.not_mem_nil b)) hnd hdz
  simpa [kahnOrdered] using this

/-- C10: for every list of distinct segment ids, cyclic dependency
structures included, the topological ordering terminates and returns a
permutation of its input: every id appears exactly once in the
processing order. -/
theorem topological_sort_permutation (st : MapperState) (ids : List ℕ)
    (hids : ids.Nodup) : (topologicalSortSegments st ids).Perm ids := by
  obtain ⟨hRnodup, hRsub⟩ := kahnOrdered_nodup_subset st ids hids
  rw [List.perm_iff_count]
  intro a
  simp only [topologicalSortSegments]
  rw [List.count_append]
  by_cases ha : a ∈ kahnOrdered st ids
  · rw [List.count_eq_one_of_mem hRnodup ha]
    have hzero : List.count a (ids.filter (fun s => !((kahnOrdered st ids).contains s))) = 0 := by
      rw [List.count_eq_zero]
      intro hmem
      have hhp := (List.mem_filter.mp hmem).2
      simp at hhp
      exact hhp ha
    rw [hzero, List.count_eq_one_of_mem hids (hRsub a ha)]
  · rw [List.count_eq_zero.mpr ha]
    have hp : (fun s => !((kahnOrdered st ids).contains s)) a = true := by
      simp [ha]
    rw [show List.count a (List.filter (fun s => !((kahnOrdered st ids).contains s)) ids)
        = List.count a ids from List.count_filter hp]
    omega

/-- A two-segment loop: segment 1 runs from node 5 to node 6 and segment
2 from node 6 back to node 5, so neither has zero in-degree. -/
def cycleState : MapperState :=
  ⟨fun k => if k = 5 then some ⟨5, [2], [1], none, false⟩
      else if k = 6 then some ⟨6, [1], [2], none, false⟩ else none,
    fun i => if i = 1 then some ⟨1, 5, 6, 10, none, none, none, none⟩
      else if i = 2 then some ⟨2, 6, 5, 10, none, none, none, none⟩ else none,
    fun _ => none,
    fun _ => none⟩

/-- Witness for C10 on a cyclic input: the order is still a permutation
of the ids. -/
theorem topological_sort_permutation_witness :
    ([1, 2] : List ℕ).Nodup ∧ (topologicalSortSegments cycleState [1, 2]).Perm [1, 2] :=
  ⟨by decide, topological_sort_permutation cycleState [1, 2] (by decide)⟩

theorem sum_map_single (l : List ℕ) (b : ℕ) (g : ℕ → ℕ) (hnd : l.Nodup) :
    (l.map fun x => if x = b then g x else 0).sum = if b ∈ l then g b else 0 := by
  induction l with
  | nil => simp
  | cons x rest ih =>
    obtain ⟨hx_notin, hrest⟩ := List.nodup_cons.mp hnd
    simp only [List.map_cons, List.sum_cons]
    by_cases hx : x = b
    · subst hx
      rw [if_pos rfl, ih hrest, if_neg hx_notin, if_pos (List.mem_cons_self x rest)]
      omega
    · rw [if_neg hx, ih hrest]
      by_cases hbr : b ∈ rest
      · rw [if_pos hbr, if_pos (List.mem_cons_of_mem x hbr)]
        omega
      · rw [if_neg hbr,
          if_neg (fun hmem => (List.mem_cons.mp hmem).elim (fun h => hx h.symm) hbr)]

theorem graphSucc_count (st : MapperState) (ids : List ℕ) (hids : ids.Nodup)
    (a b : ℕ) (hb : b ∈ ids) :
    (graphSucc st ids a).count b = (upstreamAffected st ids b).count a := by
  rw [graphSucc, List.count_flatMap]
  have hmap : (List.map (List.count b ∘ fun x =>
        List.replicate ((upstreamAffected st ids x).count a) x) ids)
      = ids.map (fun x => if x = b then (upstreamAffected st ids x).count a else 0) := by
    refine List.map_congr_left (fun x hx => ?_)
    simp only [Function.comp]
    rw [List.count_replicate]
    by_cases hxb : x = b
    · rw [if_pos (by simp [hxb]), if_pos hxb]
    · rw [if_neg (by simp [hxb]), if_neg hxb]
  rw [hmap, sum_map_single ids b _ hids, if_pos hb]

theorem graphSucc_nodup (st : MapperState) (ids : List ℕ) (hids : ids.Nodup)
    (hpn : ∀ b : ℕ, (upstreamAffected st ids b).Nodup) (c : ℕ) :
    (graphSucc st ids c).Nodup := by
  rw [List.nodup_iff_count_le_one]
  intro b
  by_cases hb : b ∈ ids
  · rw [graphSucc_count st ids hids c b hb]
    exact List.nodup_iff_count_le_one.mp (hpn b) c
  · have : b ∉ graphSucc st ids c :=
      fun hmem => hb ((graphSucc_mem st ids c b).mp hmem).1
    rw [List.count_eq_zero.mpr this]
    omega

theorem decNeighbors_ready_mem (ns : List ℕ) (hnd : ns.Nodup) :
    ∀ (d : ℕ → ℤ) (b : ℕ), b ∈ (decNeighbors d ns).2 ↔ b ∈ ns ∧ d b = 1 := by
  induction ns with
  | nil => intro d b; simp [decNeighbors]
  | cons n rest ih =>
    intro d b
    obtain ⟨hn_notin, hrest_nd⟩ := List.nodup_cons.mp hnd
    rw [decNeighbors_cons]
    by_cases hz : d n - 1 = 0
    · rw [if_pos hz]
      constructor
      · intro h
        rcases List.mem_cons.mp h with rfl | hmem
        · exact ⟨List.mem_cons_self _ _, by omega⟩
        · obtain ⟨hbr, hd2⟩ := (ih hrest_nd _ b).mp hmem
          have hbn : b ≠ n := fun h2 => hn_notin (h2 ▸ hbr)
          rw [if_neg hbn] at hd2
          exact ⟨List.mem_cons_of_mem n hbr, hd2⟩
      · rintro ⟨hmem, hd1⟩
        rcases List.mem_cons.mp hmem with rfl | hbr
        · exact List.mem_cons_self _ _
        · have hbn : b ≠ n := fun h2 => hn_notin (h2 ▸ hbr)
          refine List.mem_cons_of_mem n ((ih hrest_nd _ b).mpr ⟨hbr, ?_⟩)
          rw [if_neg hbn]
          exact hd1
    · rw [if_neg hz]
      constructor
      · intro h
        obtain ⟨hbr, hd2⟩ := (ih hrest_nd _ b).mp h
        have hbn : b ≠ n := fun h2 => hn_notin (h2 ▸ hbr)
        rw [if_neg hbn] at hd2
        exact ⟨List.mem_cons_of_mem n hbr, hd2⟩
      · rintro ⟨hmem, hd1⟩
        rcases List.mem_cons.mp hmem with rfl | hbr
        · exact absurd (by omega : d b - 1 = 0) hz
        · have hbn : b ≠ n := fun h2 => hn_notin (h2 ▸ hbr)
          refine (ih hrest_nd _ b).mpr ⟨hbr, ?_⟩
          rw [if_neg hbn]
          exact hd1

theorem filter_notmem_nil (l res : List ℕ) (h : ∀ a ∈ l, a ∈ res) :
    l.filter (fun a => !(res.contains a)) = [] := by
  induction l with
  | nil => rfl
  | cons x rest ih =>
    rw [List.filter_cons]
    have hx : x ∈ res := h x (List.mem_cons_self x rest)
    rw [if_neg (by simp [hx])]
    exact ih (fun a ha => h a (List.mem_cons_of_mem x ha))

theorem filter_notmem_append_len (l res : List ℕ) (c : ℕ) (hc : c ∉ res) :
    (l.filter (fun a => !((res ++ [c]).contains a))).length + l.count c
      = (l.filter (fun a => !(res.contains a))).length := by
  induction l with
  | nil => simp
  | cons x rest ih =>
    rw [List.filter_cons, List.filter_cons]
    by_cases hx : x = c
    · subst hx
      rw [if_neg (by simp : ¬ (!((res ++ [x]).contains x)) = true),
        if_pos (by simp [hc] : (!(res.contains x)) = true),
        List.count_cons_self]
      simp only [List.length_cons]
      omega
    · have hpred : ((res ++ [c]).contains x) = (res.contains x) := by
        simp [List.mem_append, hx]
      rw [hpred, List.count_cons_of_ne (fun h => hx h.symm)]
      by_cases hkeep : (!(res.contains x)) = true
      · rw [if_pos hkeep, if_pos hkeep]
        simp only [List.length_cons]
        omega
      · rw [if_neg hkeep, if_neg hkeep]
        exact ih

theorem kahn_ord_master (st : MapperState) (ids : List ℕ)
    (hids : ids.Nodup)
    (hpn : ∀ b : ℕ, (upstreamAffected st ids b).Nodup) :
    ∀ (fuel : ℕ) (q : List ℕ) (d : ℕ → ℤ) (res : List ℕ),
      (∀ b ∈ q, b ∈ ids) → (∀ b ∈ res, b ∈ ids) → (res ++ q).Nodup →
      (∀ b ∈ q, ∀ a ∈ upstreamAffected st ids b, a ∈ res) →
      (∀ b ∈ res, ∀ a ∈ upstreamAffected st ids b,
        a ∈ res ∧ res.indexOf a < res.indexOf b) →
      (∀ b ∈ ids, d b = (((upstreamAffected st ids b).filter
        (fun a => !(res.contains a))).length : ℤ)) →
      ∀ b ∈ kahnAuxFuel (graphSucc st ids) fuel q d res,
        ∀ a ∈ upstreamAffected st ids b,
          a ∈ kahnAuxFuel (graphSucc st ids) fuel q d res ∧
          (kahnAuxFuel (graphSucc st ids) fuel q d res).indexOf a <
            (kahnAuxFuel (graphSucc st ids) fuel q d res).indexOf b := by
  intro fuel
  induction fuel with
  | zero =>
    intro q d res hq hres hnd hqp hro hdd
    rw [kahnAuxFuel_zero]
    exact hro
  | succ f ih =>
    intro q d res hq hres hnd hqp hro hdd
    cases q with
    | nil =>
      rw [kahnAuxFuel_nil]
      exact hro
    | cons c rest =>
      rw [kahnAuxFuel_succ]
      have hc_ids : c ∈ ids := hq c (List.mem_cons_self c rest)
      have hc_notres : c ∉ res := by
        intro hcr
        exact (List.nodup_append.mp hnd).2.2 hcr (List.mem_cons_self c rest)
      have hgnodup : (graphSucc st ids c).Nodup := graphSucc_nodup st ids hids hpn c
      have hready := decNeighbors_ready_mem (graphSucc st ids c) hgnodup d
      have hfilnil : ∀ bb : ℕ, (∀ a ∈ upstreamAffected st ids bb, a ∈ res) →
          ((upstreamAffected st ids bb).filter (fun a => !(res.contains a))).length = 0 := by
        intro bb hsub
        rw [filter_notmem_nil _ _ hsub]
        rfl
      have hready_preds : ∀ bb ∈ (decNeighbors d (graphSucc st ids c)).2,
          ∀ a ∈ upstreamAffected st ids bb, a ∈ res ++ [c] := by
        intro bb hbb a ha
        obtain ⟨hbg, hd1⟩ := (hready bb).mp hbb
        obtain ⟨hb_ids, hc_pred⟩ := (graphSucc_mem st ids c bb).mp hbg
        have hdd_b := hdd bb hb_ids
        have hflen : ((upstreamAffected st ids bb).filter
            (fun x => !(res.contains x))).length = 1 := by
          omega
        obtain ⟨x, hx⟩ := List.length_eq_one.mp hflen
        have hcx : c ∈ (upstreamAffected st ids bb).filter (fun x => !(res.contains x)) :=
          List.mem_filter.mpr ⟨hc_pred, by simp [hc_notres]⟩
        rw [hx, List.mem_singleton] at hcx
        by_cases har : a ∈ res
        · exact List.mem_append_left _ har
        · have hax : a ∈ [x] := by
            rw [← hx]
            exact List.mem_filter.mpr ⟨ha, by simp [har]⟩
          rw [List.mem_singleton] at hax
          rw [hax, ← hcx]
          exact List.mem_append_right _ (List.mem_singleton.mpr rfl)
      have hfresh : ∀ bb ∈ (decNeighbors d (graphSucc st ids c)).2,
          bb ∉ res ∧ bb ∉ c :: rest := by
        intro bb hbb
        obtain ⟨hbg, hd1⟩ := (hready bb).mp hbb
        obtain ⟨hb_ids, _⟩ := (graphSucc_mem st ids c bb).mp hbg
        constructor
        · intro hbr
          have hzero := hfilnil bb (fun a ha => (hro bb hbr a ha).1)
          have hdd_b := hdd bb hb_ids
          omega
        · intro hbq
          have hzero := hfilnil bb (hqp bb hbq)
          have hdd_b := hdd bb hb_ids
          omega
      apply ih
      · intro b hb
        rcases List.mem_append.mp hb with h | h
        · exact hq b (List.mem_cons_of_mem c h)
        · exact ((graphSucc_mem st ids c b).mp ((hready b).mp h).1).1
      · intro b hb
        rcases List.mem_append.mp hb with h | h
        · exact hres b h
        · rw [List.mem_singleton] at h
          rw [h]
          exact hc_ids
      · have hshape : (res ++ [c]) ++ (rest ++ (decNeighbors d (graphSucc st ids c)).2)
            = (res ++ c :: rest) ++ (decNeighbors d (graphSucc st ids c)).2 := by
          simp
        rw [hshape]
        refine List.nodup_append.mpr ⟨hnd, decNeighbors_ready_nodup _ d, ?_⟩
        intro b hb hb2
        obtain ⟨h1, h2⟩ := hfresh b hb2
        rcases List.mem_append.mp hb with h | h
        · exact h1 h
        · exact h2 h
      · intro b hb a ha
        rcases List.mem_append.mp hb with h | h
        · exact List.mem_append_left _ (hqp b (List.mem_cons_of_mem c h) a ha)
        · exact hready_preds b h a ha
      · intro b hb a ha
        rcases List.mem_append.mp hb with hbr | hbc
        · obtain ⟨haR, hidx⟩ := hro b hbr a ha
          refine ⟨List.mem_append_left _ haR, ?_⟩
          rw [List.indexOf_append_of_mem haR, List.indexOf_append_of_mem hbr]
          exact hidx
        · rw [List.mem_singleton] at hbc
          have haR : a ∈ res := hqp c (List.mem_cons_self c rest) a (hbc ▸ ha)
          refine ⟨List.mem_append_left _ haR, ?_⟩
          rw [List.indexOf_append_of_mem haR, hbc,
            List.indexOf_append_of_not_mem hc_notres]
          have hone : List.indexOf c [c] = 0 := by simp
          rw [hone]
          have hlt := List.indexOf_lt_length.mpr haR
          omega
      · intro b hb_ids
        rw [decNeighbors_fst, graphSucc_count st ids hids c b hb_ids, hdd b hb_ids]
        have hFL := filter_notmem_append_len (upstreamAffected st ids b) res c hc_notres
        omega

theorem upstreamAffected_nodup (st : MapperState) (ids : List ℕ)
    (hnodes : ∀ (k : ℕ) (n : NetworkNode), st.nodes k = some n → n.upstream_segments.Nodup)
    (b : ℕ) : (upstreamAffected st ids b).Nodup := by
  rcases hseg : st.segments b with _ | seg
  · simp [upstreamAffected, hseg]
  · rcases hnode : st.nodes seg.upstream_node_key with _ | n
    · simp [upstreamAffected, hseg, hnode]
    · simp only [upstreamAffected, hseg, hnode]
      exact List.Nodup.filter _ (hnodes _ n hnode)

/-- C9: the processing order is a Kahn topological sort of the affected
subgraph. If segment A is registered as an upstream segment at the
upstream node of segment B (its downstream node key being that node),
both are in the affected id set, and B is ordered by the Kahn phase (no
residual cycle involves it), then A is ordered before B in the returned
order. The zero-in-degree ids open the order in input (insertion) order,
and every affected id appears in the returned order, a residual cycle
merely appending the remainder rather than failing. -/
theorem topological_sort_respects_edges (st : MapperState) (ids : List ℕ)
    (hids : ids.Nodup)
    (hnodes : ∀ (k : ℕ) (n : NetworkNode), st.nodes k = some n → n.upstream_segments.Nodup)
    (A B : ℕ) (segA segB : NetworkSegment) (nodeB : NetworkNode)
    (hB : st.segments B = some segB)
    (hnB : st.nodes segB.upstream_node_key = some nodeB)
    (hA : st.segments A = some segA)
    (hkey : segA.downstream_node_key = segB.upstream_node_key)
    (hreg : A ∈ nodeB.upstream_segments)
    (hAid : A ∈ ids) (hBid : B ∈ ids) :
    (B ∈ kahnOrdered st ids →
      A ∈ topologicalSortSegments st ids ∧
      (topologicalSortSegments st ids).indexOf A <
        (topologicalSortSegments st ids).indexOf B) ∧
    (topologicalSortSegments st ids).take (initialQueue st ids).length
      = initialQueue st ids ∧
    ∀ x ∈ ids, x ∈ topologicalSortSegments st ids := by
  have hpn := upstreamAffected_nodup st ids hnodes
  have hedge : A ∈ upstreamAffected st ids B := by
    simp only [upstreamAffected, hB, hnB]
    refine List.mem_filter.mpr ⟨hreg, ?_⟩
    simp [hAid]
  have hg : ∀ a : ℕ, ∀ x ∈ graphSucc st ids a, x ∈ ids :=
    fun a x hx => ((graphSucc_mem st ids a x).mp hx).1
  have hq0 : ∀ b ∈ initialQueue st ids, b ∈ ids := fun b hb => List.mem_of_mem_filter hb
  have hnd : (([] : List ℕ) ++ initialQueue st ids).Nodup := by
    simpa [initialQueue] using List.Nodup.filter _ hids
  have hqp : ∀ b ∈ initialQueue st ids, ∀ a ∈ upstreamAffected st ids b,
      a ∈ ([] : List ℕ) := by
    intro b hb a ha
    have h0 := (List.mem_filter.mp hb).2
    have heq : initialInDegree st ids b = 0 := beq_iff_eq.mp h0
    rw [initialInDegree] at heq
    have hlen : (upstreamAffected st ids b).length = 0 := by exact_mod_cast heq
    rw [List.length_eq_zero] at hlen
    rw [hlen] at ha
    cases ha
  have hdd : ∀ b ∈ ids, initialInDegree st ids b =
      (((upstreamAffected st ids b).filter
        (fun a => !(([] : List ℕ).contains a))).length : ℤ) := by
    intro b _
    rw [initialInDegree]
    congr 1
    rw [List.filter_eq_self.mpr (fun a _ => by simp)]
  have hmaster := kahn_ord_master st ids hids hpn
    (kahnMeasure ids (initialInDegree st ids) (initialQueue st ids) + 1)
    (initialQueue st ids) (initialInDegree st ids) [] hq0
    (fun b hb => absurd hb (List.not_mem_nil b)) hnd hqp
    (fun b hb => absurd hb (List.not_mem_nil b)) hdd
  have hmaster2 : ∀ b ∈ kahnOrdered st ids, ∀ a ∈ upstreamAffected st ids b,
      a ∈ kahnOrdered st ids ∧
      (kahnOrdered st ids).indexOf a < (kahnOrdered st ids).indexOf b := hmaster
  refine ⟨?_, ?_, ?_⟩
  · intro hBk
    obtain ⟨hAk, hidx⟩ := hmaster2 B hBk A hedge
    constructor
    · exact List.mem_append_left _ hAk
    · simp only [topologicalSortSegments]
      rw [List.indexOf_append_of_mem hAk, List.indexOf_append_of_mem hBk]
      exact hidx
  · obtain ⟨tail, ht⟩ := kahnAuxFuel_queue_prefix ids (graphSucc st ids) hg
      (kahnMeasure ids (initialInDegree st ids) (initialQueue st ids) + 1)
      (initialQueue st ids) (initialInDegree st ids) [] (Nat.lt_succ_self _)
    have hk : kahnOrdered st ids = initialQueue st ids ++ tail := by
      rw [kahnOrdered, ht]
      simp
    simp only [topologicalSortSegments]
    rw [hk, List.append_assoc, List.take_left]
  · intro x hx
    by_cases hxk : x ∈ kahnOrdered st ids
    · exact List.mem_append_left _ hxk
    · refine List.mem_append_right _ (List.mem_filter.mpr ⟨hx, ?_⟩)
      simp [hxk]

/-- A two-segment chain for the C9 witness: segment 1 ends at node 5
where segment 2 begins; the affected set is listed as [2, 1], against
dependency order. -/
def chainState : MapperState :=
  ⟨fun k => if k = 5 then some ⟨5, [1], [2], none, false⟩ else none,
    fun i => if i = 1 then some ⟨1, 0, 5, 10, none, none, none, none⟩
      else if i = 2 then some ⟨2, 5, 9, 10, none, none, none, none⟩ else none,
    fun _ => none,
    fun _ => none⟩

/-- Witness for C9: in the two-segment chain given in reverse order, the
ordered phase contains segment 2 and places segment 1 before it. -/
theorem topological_sort_respects_edges_witness :
    2 ∈ kahnOrdered chainState [2, 1] ∧
    1 ∈ topologicalSortSegments chainState [2, 1] ∧
    (topologicalSortSegments chainState [2, 1]).indexOf 1 <
      (topologicalSortSegments chainState [2, 1]).indexOf 2 := by
  have hnodes : ∀ (k : ℕ) (n : NetworkNode), chainState.nodes k = some n →
      n.upstream_segments.Nodup := by
    intro k n hk
    by_cases h5 : k = 5
    · subst h5
      simp only [chainState] at hk
      rw [if_pos trivial] at hk
      cases hk
      decide
    · simp only [chainState] at hk
      rw [if_neg h5] at hk
      cases hk
  have h := topological_sort_respects_edges chainState [2, 1] (by decide) hnodes
    1 2 ⟨1, 0, 5, 10, none, none, none, none⟩ ⟨2, 5, 9, 10, none, none, none, none⟩
    ⟨5, [1], [2], none, false⟩ rfl rfl rfl rfl (by decide) (by decide) (by decide)
  have hBk : 2 ∈ kahnOrdered chainState [2, 1] := by decide
  exact ⟨hBk, (h.1 hBk).1, (h.1 hBk).2⟩

end Sewerage
